import Mathlib

/-!
Verification model of the biometric attendance reconciliation engine
(`redginger.py`, `westlands.py`, `westlands-break.py`).

Conventions of the shallow embedding:
* calendar dates are integers (days counted from the 2025-08-01 processing
  floor, so the floor itself is day `0` and earlier days are negative);
* times of day are natural numbers of seconds in `[0, 86400)`;
* full timestamps are integers `date * 86400 + time`;
* SQL `NULL`able column groups are `Option` fields;
* the in-memory `processed_records` set of `AttendanceProcessor` is not
  modelled: every statement guarded by it is also guarded by the durable
  database existence checks that run right after it, with the same effect
  on the store, and the spec treats the set as a process-local
  optimisation only.
-/

namespace Attendance

/-- Seconds in a day. -/
def daySeconds : Nat := 86400

/-- Split a character list on a separator (the semantics of Python's
`str.split(sep)` and of SQL-free string handling; implemented on character
lists so that proofs can evaluate it). -/
def splitOnChar (sep : Char) : List Char → List (List Char)
  | [] => [[]]
  | c :: cs =>
    let rest := splitOnChar sep cs
    if c = sep then [] :: rest
    else
      match rest with
      | [] => [[c]]
      | r :: rs => (c :: r) :: rs

/-- Strip leading and trailing whitespace from a character list. -/
def trimChars (l : List Char) : List Char :=
  ((l.dropWhile Char.isWhitespace).reverse.dropWhile Char.isWhitespace).reverse

/-- Decimal value of a digit list. -/
def digitsToNat (l : List Char) : Nat :=
  l.foldl (fun acc c => acc * 10 + (c.toNat - 48)) 0

/-- Python `int(...)` on a character list: optional surrounding whitespace,
an optional sign, then decimal digits.  Returns `none` where `int` raises
`ValueError`.  (Numeric-separator underscores are not modelled.) -/
def pyIntChars (l : List Char) : Option Int :=
  let t := trimChars l
  match t with
  | [] => none
  | c :: cs =>
    let signDigits : Bool × List Char :=
      if c = '-' then (true, cs) else if c = '+' then (false, cs) else (false, t)
    let digits := signDigits.2
    if digits.isEmpty then none
    else if digits.all Char.isDigit then
      some (if signDigits.1 then -(digitsToNat digits : Int)
            else (digitsToNat digits : Int))
    else none

/-- Check that an hour/minute/second triple is accepted by Python's
`time(hour, minute, second)` constructor. -/
def validHMS (h m s : Int) : Bool :=
  0 ≤ h && h < 24 && 0 ≤ m && m < 60 && 0 ≤ s && s < 60

/-- Seconds since midnight from a valid hour/minute/second triple. -/
def hmsToSeconds (h m s : Int) : Nat :=
  (h * 3600 + m * 60 + s).toNat

/-- The successfully-parsed reading of a time string under
`AttendanceProcessor.parse_time_string`: split on `:`, `int(...)` the first
two or three fields (extra fields are ignored, a missing third field means
zero seconds), and build a `time` object.  `none` captures every case in
which the Python code falls into its `except` branch or the no-colon path. -/
def redgingerParseTimeOpt (s : String) : Option Nat :=
  if s.data.contains ':' then
    match splitOnChar ':' s.data with
    | hStr :: mStr :: rest =>
      let secVal : Option Int :=
        match rest with
        | [] => some 0
        | x :: _ => pyIntChars x
      match pyIntChars hStr, pyIntChars mStr, secVal with
      | some h, some m, some sec =>
        if validHMS h m sec then some (hmsToSeconds h m sec) else none
      | _, _, _ => none
    | _ => none
  else none

/-- `AttendanceProcessor.parse_time_string`: total parse of a time string,
returning midnight (`0` seconds) for every invalid input. -/
def parse_time_string (s : String) : Nat :=
  (redgingerParseTimeOpt s).getD 0

/-- Check-in half of `AttendanceProcessor.calculate_punch_status`, on
seconds-of-day: a 10 minute grace window is added to the shift start (via
`datetime.combine` with today's date plus `timedelta`, so the comparison is
against `(shift + 600) mod 86400` seconds). -/
def redgingerCheckinStatus (punch shiftStart : Nat) : String × String :=
  let graceTime := (shiftStart + 600) % daySeconds
  if punch ≤ graceTime then ("ontime", "") else ("late", "late")

/-- Check-out half of `AttendanceProcessor.calculate_punch_status`, on
seconds-of-day (note: this string-level checkout classification is distinct
from the classification inlined in `process_checkout`). -/
def redgingerCheckoutLegacyStatus (punch shiftEnd : Nat) : String × String :=
  if punch ≥ shiftEnd then ("auto", "") else ("earlycheckout", "earlycheckout")

/-- `AttendanceProcessor.calculate_punch_status` on raw strings. -/
def redgingerCalculatePunchStatus (punchTime shiftTime : String)
    (isCheckin : Bool) : String × String :=
  let punchT := parse_time_string punchTime
  let shiftT := parse_time_string shiftTime
  if isCheckin then redgingerCheckinStatus punchT shiftT
  else redgingerCheckoutLegacyStatus punchT shiftT

/-- Checkout status computation inlined in
`AttendanceProcessor.process_checkout` (lines 590-603): full-timestamp
comparison against the shift end anchored on the check-in date, with the
`force_auto` administrative override and an integer overtime flag tested for
truthiness. -/
def redgingerCheckoutStatus (forceAuto : Bool) (punchTS shiftEndTS : Int)
    (overtimeAllowed : Nat) : String × String :=
  if forceAuto then ("auto", "")
  else if punchTS < shiftEndTS then ("earlycheckout", "earlycheckout")
  else if overtimeAllowed ≠ 0 then ("overtime", "") else ("manual", "")

/-- Punch kinds handled by the westlands classifier. -/
inductive PunchKind where
  | checkin
  | checkout
deriving DecidableEq, Repr

/-- The inner `parse_time` of `BiometricETLPipeline.calculate_punch_status`:
`strip()` then `strptime` with `%H:%M:%S`, falling back to `%H:%M`.
`none` captures a `ValueError` from both formats.  Each numeric field of
`strptime` accepts one or two digits. -/
def westlandsParseTimeOpt (s : String) : Option Nat :=
  let t := trimChars s.data
  let fieldOk (f : List Char) : Bool :=
    !f.isEmpty && f.length ≤ 2 && f.all Char.isDigit
  let fieldVal (f : List Char) : Int := (digitsToNat f : Int)
  match splitOnChar ':' t with
  | [hStr, mStr, sStr] =>
    if fieldOk hStr && fieldOk mStr && fieldOk sStr
        && validHMS (fieldVal hStr) (fieldVal mStr) (fieldVal sStr) then
      some (hmsToSeconds (fieldVal hStr) (fieldVal mStr) (fieldVal sStr))
    else none
  | [hStr, mStr] =>
    if fieldOk hStr && fieldOk mStr
        && validHMS (fieldVal hStr) (fieldVal mStr) 0 then
      some (hmsToSeconds (fieldVal hStr) (fieldVal mStr) 0)
    else none
  | _ => none

/-- `BiometricETLPipeline.calculate_punch_status`.  The `overtime_allowed`
argument is modelled as the boolean that the source's coercion block
normalises arbitrary string/int inputs to.  A parse failure anywhere raises
in the source and lands in the `except` fallback, which returns
`('late', 'late')` for check-ins and `('manual', 'manual')` otherwise. -/
def westlandsCalculatePunchStatus (punchTime shiftStartTime : String)
    (punchType : PunchKind) (shiftEndTime : Option String)
    (overtimeAllowed : Bool) : String × String :=
  let fallback : String × String :=
    match punchType with
    | .checkin => ("late", "late")
    | .checkout => ("manual", "manual")
  match westlandsParseTimeOpt punchTime with
  | none => fallback
  | some punchT =>
    match punchType with
    | .checkin =>
      match westlandsParseTimeOpt shiftStartTime with
      | none => fallback
      | some shiftStartT =>
        if punchT ≤ shiftStartT then ("ontime", "ontime") else ("late", "late")
    | .checkout =>
      -- `if not shift_end_time:` treats both `None` and `''` as missing.
      match shiftEndTime with
      | none => ("manual", "manual")
      | some endStr =>
        if endStr = "" then ("manual", "manual")
        else
          match westlandsParseTimeOpt endStr with
          | none => fallback
          | some shiftEndT =>
            if punchT < shiftEndT then ("earlycheckout", "earlycheckout")
            else if overtimeAllowed then ("overtime", "overtime")
            else ("manual", "manual")

/-! ## Data model of the reconciliation pipeline (`redginger.py`) -/

/-- Migration flag of a raw punch event (`migration_status` column:
`'No'`, `'Yes'`, `'Duplicate'`). -/
inductive MigStatus where
  | pending
  | applied
  | duplicate
deriving DecidableEq, Repr

/-- Punch kinds stored in the attendance log. -/
inductive EvKind where
  | checkin
  | checkout
  | breakin
  | breakout
deriving DecidableEq, Repr

/-- A raw punch event row of `tymeplushr_attendance_logs`.  The device
identifier is not modelled: `redginger.py` never filters on it. -/
structure Event where
  emp : String
  date : Int
  time : Nat
  kind : EvKind
  migration : MigStatus
deriving DecidableEq, Repr

/-- The check-in column group of a session row (all set together by the
insert in `process_checkin`). -/
structure CheckinData where
  date : Int
  time : Nat
  status : String
  reason : String
deriving DecidableEq, Repr

/-- The check-out column group of a session row: the columns that
`process_checkout` sets together and the anomaly fixer nulls together
(`checkoutdate/checkouttime/checkoutdatetime`, `punchoutid`,
`punchoutstatus/punchoutreason` and the four `logout*` location columns;
the derived datetime string and the two float coordinates ride along with
the location name and are represented by it). -/
structure CheckoutData where
  date : Int
  time : Nat
  status : String
  reason : String
  punchoutid : Nat
  locName : String
deriving DecidableEq, Repr

/-- A row of the `test_tymeplususerpunchactions` session store. -/
structure Session where
  id : Nat
  emp : String
  shiftStart : Nat
  shiftEnd : Nat
  overtimeid : Nat
  checkin : Option CheckinData
  checkout : Option CheckoutData
deriving DecidableEq, Repr

/-- Employee master data resolved from `biometrics_master`
(shift boundary snapshot and the integer overtime flag produced by
`resolve_overtime_flag`). -/
structure MasterData where
  shiftStart : Nat
  shiftEnd : Nat
  overtime : Nat
deriving DecidableEq, Repr

/-- The mutable state a reconciliation cycle acts on: the session store and
the source event table with its migration flags. -/
structure SysState where
  store : List Session
  events : List Event
deriving DecidableEq, Repr

/-- Full timestamp of a date and a time of day. -/
def toTS (d : Int) (t : Nat) : Int := d * 86400 + (t : Int)

/-- Calendar date of a timestamp. -/
def dayOf (ts : Int) : Int := ts.ediv 86400

/-- Time of day of a timestamp. -/
def timeOf (ts : Int) : Nat := (ts.emod 86400).toNat

/-- Day index of the 2025-08-01 minimum processing date hard-coded in
`redginger.py` (dates in the model are counted from this floor). -/
def minEligibleDate : Int := 0

/-- Does the session's (nullable) check-in date equal `d`?
SQL `checkindate = d` is false on `NULL`. -/
def Session.ciDateIs (s : Session) (d : Int) : Bool :=
  match s.checkin with
  | some ci => ci.date == d
  | none => false

/-- Does the session's (nullable) check-out date equal `d`?  Matches the
`checkoutdate = d AND checkouttime IS NOT NULL` pattern of the source. -/
def Session.coDateIs (s : Session) (d : Int) : Bool :=
  match s.checkout with
  | some co => co.date == d
  | none => false

/-- Check-in time with a dummy default (only ever read on sessions whose
check-in is present). -/
def Session.ciTimeD (s : Session) : Nat :=
  match s.checkin with
  | some ci => ci.time
  | none => 0

/-- Check-in date with a dummy default (only ever read on sessions whose
check-in is present). -/
def Session.ciDateD (s : Session) : Int :=
  match s.checkin with
  | some ci => ci.date
  | none => 0

/-! ## Pipeline operations -/

/-- `validate_checkout_time_logic`: a checkout must be strictly after the
check-in, and on the same calendar date at least one hour (3600 s) after
it. -/
def validate_checkout_time_logic (ciDate : Int) (ciTime : Nat)
    (coDate : Int) (coTime : Nat) : Bool :=
  if toTS coDate coTime ≤ toTS ciDate ciTime then false
  else if ciDate == coDate
      && toTS coDate coTime - toTS ciDate ciTime < 3600 then false
  else true

/-- Left-to-right scan keeping the candidate with the strictly greatest
check-in time (the first hit wins ties). -/
def pickLatestAux (acc : Session) : List Session → Session
  | [] => acc
  | s :: rest => pickLatestAux (if s.ciTimeD > acc.ciTimeD then s else acc) rest

/-- `ORDER BY checkindate DESC, checkintime DESC LIMIT 1` over the open
sessions of a single check-in date: the candidate with the greatest
check-in time (ties are unspecified in SQL; the first hit wins here). -/
def pickLatestCheckin : List Session → Option Session
  | [] => none
  | s :: rest => some (pickLatestAux s rest)

/-- One date probe of `find_checkin_for_checkout`, then the recursion over
the remaining search dates: an open session of the employee on the probed
date is accepted only if the checkout timestamp exceeds its check-in
timestamp, otherwise the search moves to the next (earlier) date. -/
def findCheckinAux (store : List Session) (emp : String) (coDate : Int)
    (coTime : Nat) : List Int → Option Session
  | [] => none
  | dd :: rest =>
    match pickLatestCheckin (store.filter
        (fun s => s.emp == emp && s.checkout.isNone && s.ciDateIs dd)) with
    | some s =>
      if toTS coDate coTime > toTS s.ciDateD s.ciTimeD then some s
      else findCheckinAux store emp coDate coTime rest
    | none => findCheckinAux store emp coDate coTime rest

/-- `find_checkin_for_checkout`: search the store for the open session the
checkout belongs to, on the checkout date, one day earlier, then two days
earlier. -/
def findCheckinForCheckout (store : List Session) (emp : String)
    (coDate : Int) (coTime : Nat) : Option Session :=
  findCheckinAux store emp coDate coTime [coDate, coDate - 1, coDate - 2]

/-- Close a session row in place (`UPDATE ... WHERE userpunchactionid`). -/
def closeSession (store : List Session) (sid : Nat) (co : CheckoutData) :
    List Session :=
  store.map (fun t => if t.id == sid then { t with checkout := some co } else t)

/-- `process_checkout`: skip without effect when master data is missing;
treat an existing closed session on the checkout date as already applied;
otherwise locate the matching open check-in, validate chronology, and close
the row with the classified status.  The boolean mirrors the Python return
value. -/
def processCheckout (master : String → Option MasterData)
    (store : List Session) (emp : String) (coDate : Int) (coTime : Nat)
    (forceAuto : Bool) : List Session × Bool :=
  match master emp with
  | none => (store, false)
  | some bm =>
    if store.any (fun s => s.emp == emp && s.coDateIs coDate) then
      (store, true)
    else
      match findCheckinForCheckout store emp coDate coTime with
      | none => (store, false)
      | some cr =>
        match cr.checkin with
        | none => (store, false)  -- unreachable: matched sessions carry a check-in
        | some ci =>
          if validate_checkout_time_logic ci.date ci.time coDate coTime then
            (closeSession store cr.id
              ⟨coDate, coTime,
               (redgingerCheckoutStatus forceAuto (toTS coDate coTime)
                 (toTS ci.date bm.shiftEnd) cr.overtimeid).1,
               (redgingerCheckoutStatus forceAuto (toTS coDate coTime)
                 (toTS ci.date bm.shiftEnd) cr.overtimeid).2,
               2, "Red Ginger Eatery Ltd"⟩,
             true)
          else (store, false)

/-- `ORDER BY punch_date, punch_time LIMIT 1` (first hit wins ties). -/
def pickEarliestEvent (l : List Event) : Option Event :=
  l.foldl
    (fun acc e =>
      match acc with
      | none => some e
      | some a =>
        if e.date < a.date || (e.date == a.date && e.time < a.time) then some e
        else acc)
    none

/-- `find_checkout_for_checkin`: earliest checkout event of the employee on
the check-in date strictly after the check-in time; only when the check-in
date is in the past, fall back to the earliest checkout event on the
following date.  Neither query filters on the migration flag. -/
def findCheckoutForCheckin (events : List Event) (today : Int)
    (emp : String) (ciDate : Int) (ciTime : Nat) : Option Event :=
  let sameDay := pickEarliestEvent (events.filter
    (fun e => e.emp == emp && e.kind == EvKind.checkout
      && e.date == ciDate && e.time > ciTime))
  match sameDay with
  | some e => some e
  | none =>
    if ciDate < today then
      pickEarliestEvent (events.filter
        (fun e => e.emp == emp && e.kind == EvKind.checkout
          && e.date == ciDate + 1))
    else none

/-- Set the migration flag of every event row matching
`(user_id, punch_date, punch_time, punch_type)`. -/
def markMigration (events : List Event) (emp : String) (d : Int) (t : Nat)
    (k : EvKind) (flag : MigStatus) : List Event :=
  events.map
    (fun e =>
      if e.emp == emp && e.date == d && e.time == t && e.kind == k then
        { e with migration := flag }
      else e)

/-- Largest session id in the store (serial-column successor source). -/
def maxSessionId (store : List Session) : Nat :=
  store.foldl (fun m s => max m s.id) 0

/-- The open session row that `process_checkin` inserts: a fresh id, the
master-data shift snapshot and overtime flag, and the classified check-in
column group. -/
def freshSession (store : List Session) (bm : MasterData) (emp : String)
    (d : Int) (t : Nat) : Session :=
  ⟨maxSessionId store + 1, emp, bm.shiftStart, bm.shiftEnd, bm.overtime,
   some ⟨d, t, (redgingerCheckinStatus t bm.shiftStart).1,
     (redgingerCheckinStatus t bm.shiftStart).2⟩, none⟩

/-- `process_checkin`: skip without effect when master data is missing;
treat an existing session for `(employee, date)` as already applied (note:
this path does not mark the source event); otherwise insert the classified
open session, mark the source check-in applied, and immediately look for
its checkout — same-day always, next-day only for past dates; if none is
found for a past date and the next-day 05:00 deadline has elapsed, close
with a forced auto checkout. -/
def processCheckin (master : String → Option MasterData) (now : Int)
    (st : SysState) (emp : String) (d : Int) (t : Nat) : SysState × Bool :=
  let today := dayOf now
  match master emp with
  | none => (st, false)
  | some bm =>
    if st.store.any (fun s => s.emp == emp && s.ciDateIs d) then (st, true)
    else
      let store1 := st.store ++ [freshSession st.store bm emp d t]
      let events1 := markMigration st.events emp d t EvKind.checkin .applied
      match findCheckoutForCheckin events1 today emp d t with
      | some co =>
        (⟨(processCheckout master store1 emp co.date co.time false).1,
          events1⟩, true)
      | none =>
        if d == today then (⟨store1, events1⟩, true)
        else if now > toTS (d + 1) 18000 then
          (⟨(processCheckout master store1 emp (d + 1) 18000 true).1,
            events1⟩, true)
        else (⟨store1, events1⟩, true)

/-! ## Driver passes of `sync_incremental` -/

/-- Stable insertion into a sorted list: `x` lands before the first element
it compares `le` to, so equal keys keep their original order. -/
def insertLe {α : Type} (le : α → α → Bool) (x : α) : List α → List α
  | [] => [x]
  | y :: ys => if le x y then x :: y :: ys else y :: insertLe le x ys

/-- Stable insertion sort. -/
def sortByLe {α : Type} (le : α → α → Bool) : List α → List α
  | [] => []
  | x :: xs => insertLe le x (sortByLe le xs)

/-- Sort priority of `CASE WHEN punch_type = 'checkin' THEN 1 ELSE 2 END`. -/
def evKindPri (k : EvKind) : Nat :=
  match k with
  | .checkin => 1
  | _ => 2

/-- The `ORDER BY punch_date, punch_time, checkin-first` comparison. -/
def evLe (a b : Event) : Bool :=
  a.date < b.date
    || (a.date == b.date
      && (a.time < b.time
        || (a.time == b.time && evKindPri a.kind ≤ evKindPri b.kind)))

/-- `get_attendance_logs_by_date_range`: pending events in the (floored)
date range, in `(date, time, checkin-first)` order. -/
def fetchRange (events : List Event) (startD endD : Int) : List Event :=
  let s := max startD minEligibleDate
  sortByLe evLe (events.filter
    (fun e => s ≤ e.date && e.date ≤ endD && e.migration == MigStatus.pending))

/-- Distinct employees of a record list, in order of first appearance
(the iteration order of a Python dict populated while scanning). -/
def empsInOrder (recs : List Event) : List String :=
  recs.foldl (fun acc e => if acc.contains e.emp then acc else acc ++ [e.emp])
    []

/-- Dispatch one fetched record in `process_attendance_by_date`.  The
per-pass `processed_checkins` set is not modelled: a second check-in for
the same `(employee, date)` is absorbed identically by the session
existence check inside `process_checkin`. -/
def applyRecord (master : String → Option MasterData) (now : Int)
    (st : SysState) (e : Event) : SysState :=
  match e.kind with
  | .checkin => (processCheckin master now st e.emp e.date e.time).1
  | .checkout =>
    ⟨(processCheckout master st.store e.emp e.date e.time false).1, st.events⟩
  | _ => st

/-- `process_attendance_by_date`: fetch the target date plus the following
day, group by employee, and apply each employee's records in order (the
per-user re-sort of the already sorted fetch is the identity, Python's sort
being stable). -/
def perDatePass (master : String → Option MasterData) (now : Int)
    (st : SysState) (target : Int) : SysState :=
  let recs := fetchRange st.events target (target + 1)
  (empsInOrder recs).foldl
    (fun acc emp =>
      (recs.filter (fun e => e.emp == emp)).foldl (applyRecord master now) acc)
    st

/-- One index step of the cross-day scan: for a check-in record, the first
of (at most nine) following records that is a checkout on a strictly later
date is paired with it; the pair is processed only when chronologically
ordered, and the scan window closes either way. -/
def crossDayStep (master : String → Option MasterData) (now : Int)
    (recs : List Event) (st : SysState) (i : Nat) : SysState :=
  match recs.get? i with
  | none => st
  | some r =>
    if r.kind == EvKind.checkin then
      match ((recs.drop (i + 1)).take 9).find?
          (fun e => e.kind == EvKind.checkout && e.date > r.date) with
      | some co =>
        if toTS co.date co.time > toTS r.date r.time then
          let s1 := processCheckin master now st r.emp r.date r.time
          if s1.2 then
            ⟨(processCheckout master s1.1.store r.emp co.date co.time false).1,
             s1.1.events⟩
          else s1.1
        else st
      | none => st
    else st

/-- The cross-day scan over one employee's records. -/
def crossDayUser (master : String → Option MasterData) (now : Int)
    (st : SysState) (recs : List Event) : SysState :=
  (List.range recs.length).foldl (crossDayStep master now recs) st

/-- `handle_cross_day_scenarios` over a date window.  The per-user
`(date, time)` re-sort of the stably sorted fetch is the identity. -/
def crossDayPass (master : String → Option MasterData) (now : Int)
    (st : SysState) (startD endD : Int) : SysState :=
  let recs := fetchRange st.events startD endD
  (empsInOrder recs).foldl
    (fun acc emp =>
      crossDayUser master now acc (recs.filter (fun e => e.emp == emp)))
    st

/-- One open session of the auto-checkout sweep: past the next-day 05:00
deadline, a pending genuine checkout in the two-day window is applied (and
marked migrated when `process_checkout` reports success); otherwise, unless
an identical forced checkout already exists, the forced `auto` close is
attempted. -/
def sweepOne (master : String → Option MasterData) (now : Int)
    (st : SysState) (r : Session) : SysState :=
  match r.checkin with
  | none => st
  | some ci =>
    let autoDate := ci.date + 1
    if now > toTS autoDate 18000 then
      match pickEarliestEvent (st.events.filter
          (fun e => e.emp == r.emp && e.kind == EvKind.checkout
            && e.migration == MigStatus.pending
            && ci.date ≤ e.date && e.date ≤ autoDate)) with
      | some co =>
        let res := processCheckout master st.store r.emp co.date co.time false
        ⟨res.1,
         if res.2 then
           markMigration st.events r.emp co.date co.time EvKind.checkout
             .applied
         else st.events⟩
      | none =>
        if st.store.any (fun s => s.emp == r.emp
            && (match s.checkout with
              | some c => c.date == autoDate && c.time == 18000
              | none => false)) then st
        else ⟨(processCheckout master st.store r.emp autoDate 18000 true).1,
              st.events⟩
    else st

/-- `process_auto_checkouts_for_incomplete_records`: snapshot the open
sessions with past, in-range check-in dates (most recent first) and sweep
each. -/
def autoCheckoutSweep (master : String → Option MasterData) (now : Int)
    (st : SysState) : SysState :=
  let today := dayOf now
  let snapshot := sortByLe (fun a b => decide (b.ciDateD ≤ a.ciDateD))
    (st.store.filter
      (fun s => s.checkout.isNone
        && (match s.checkin with
          | some ci => minEligibleDate ≤ ci.date && ci.date < today
          | none => false)))
  snapshot.foldl (sweepOne master now) st

/-- Keep predicate of the orphan deletion in `find_and_fix_mismatched_data`:
rows with a checkout but no check-in (and an in-range checkout date) are
dropped. -/
def keptByOrphanFix (s : Session) : Bool :=
  !(s.checkin.isNone
    && (match s.checkout with
      | some co => minEligibleDate ≤ co.date
      | none => false))

/-- Smallest element of a non-empty id list (`SELECT MIN(...)`). -/
def minIdOfList : List Nat → Nat
  | [] => 0
  | x :: xs => xs.foldl min x

/-- Ids of the check-in-bearing rows sharing `(employee, checkindate)`
(the `checkintime IS NOT NULL` duplicate groups of
`find_and_fix_mismatched_data`). -/
def checkinGroupIds (store : List Session) (emp : String) (d : Int) :
    List Nat :=
  (store.filter
    (fun t => t.emp == emp && t.checkin.isSome && t.ciDateIs d)).map
    Session.id

/-- Ids of the open rows sharing `(employee, checkindate)` (the
`checkouttime IS NULL` duplicate groups of
`validate_and_cleanup_duplicates`). -/
def openGroupIds (store : List Session) (emp : String) (d : Int) :
    List Nat :=
  (store.filter
    (fun t => t.emp == emp && t.checkout.isNone && t.ciDateIs d)).map
    Session.id

/-- Ids of the closed rows sharing `(employee, checkoutdate)` (the
`checkouttime IS NOT NULL` duplicate groups of
`validate_and_cleanup_duplicates`). -/
def closedGroupIds (store : List Session) (emp : String) (d : Int) :
    List Nat :=
  (store.filter (fun t => t.emp == emp && t.coDateIs d)).map Session.id

/-- Duplicate check-in cleanup of `find_and_fix_mismatched_data`: among the
check-in-bearing rows sharing `(employee, checkindate)` with an in-range
date, only the lowest id survives.  (Groups of one are vacuously their own
minimum, so the `HAVING COUNT(*) > 1` guard changes nothing.) -/
def fixDuplicateCheckins (store : List Session) : List Session :=
  store.filter
    (fun s =>
      match s.checkin with
      | none => true
      | some ci =>
        if minEligibleDate ≤ ci.date then
          s.id == minIdOfList (checkinGroupIds store s.emp ci.date)
        else true)

/-- `find_and_fix_mismatched_data` (the incomplete-record scan only logs). -/
def findAndFixMismatchedData (st : SysState) : SysState :=
  ⟨fixDuplicateCheckins (st.store.filter keptByOrphanFix), st.events⟩

/-- Rule 1 of `validate_and_fix_time_anomalies`: same-day checkout earlier
than the check-in. -/
def anomalyRule1 (s : Session) : Bool :=
  match s.checkin, s.checkout with
  | some ci, some co =>
    ci.date == co.date && co.time < ci.time && minEligibleDate ≤ ci.date
  | _, _ => false

/-- Rule 2 of `validate_and_fix_time_anomalies`: same-day pre-dawn checkout
(before 06:00) after an afternoon check-in (12:00 or later). -/
def anomalyRule2 (s : Session) : Bool :=
  match s.checkin, s.checkout with
  | some ci, some co =>
    ci.date == co.date && co.time < 21600 && ci.time ≥ 43200
      && minEligibleDate ≤ ci.date
  | _, _ => false

/-- Null out the whole checkout column group of a row. -/
def clearCheckout (s : Session) : Session := { s with checkout := none }

/-- One `UPDATE ... SET checkout columns = NULL WHERE rule` pass. -/
def applyAnomalyRule (p : Session → Bool) (store : List Session) :
    List Session :=
  store.map (fun s => if p s then clearCheckout s else s)

/-- `validate_and_fix_time_anomalies`: rule 1 then rule 2, in one
transaction. -/
def validateAndFixTimeAnomalies (st : SysState) : SysState :=
  ⟨applyAnomalyRule anomalyRule2 (applyAnomalyRule anomalyRule1 st.store),
   st.events⟩

/-- Open-session half of `validate_and_cleanup_duplicates`: among open rows
sharing `(employee, checkindate)`, only the lowest id survives.  Open rows
with a `NULL` check-in date are never deleted: the SQL `checkindate = NULL`
comparison in the `DELETE` matches no row. -/
def dedupOpenSessions (store : List Session) : List Session :=
  store.filter
    (fun s =>
      if s.checkout.isNone then
        match s.checkin with
        | none => true
        | some ci => s.id == minIdOfList (openGroupIds store s.emp ci.date)
      else true)

/-- Closed-session half of `validate_and_cleanup_duplicates`: among closed
rows sharing `(employee, checkoutdate)`, only the lowest id survives. -/
def dedupClosedSessions (store : List Session) : List Session :=
  store.filter
    (fun s =>
      match s.checkout with
      | none => true
      | some co => s.id == minIdOfList (closedGroupIds store s.emp co.date))

/-- `validate_and_cleanup_duplicates`: the open-row pass, then the
closed-row pass over its result. -/
def validateAndCleanupDuplicates (st : SysState) : SysState :=
  ⟨dedupClosedSessions (dedupOpenSessions st.store), st.events⟩

/-- `sync_incremental` on a fresh process (no prior watermark, so the date
window is the full floor-to-today range): mismatch fixes, anomaly fixes,
the cross-day pass, per-date reconciliation oldest first, the auto-checkout
sweep, and duplicate cleanup. -/
def syncIncremental (master : String → Option MasterData) (now : Int)
    (st : SysState) : SysState :=
  let today := dayOf now
  let st1 := findAndFixMismatchedData st
  let st2 := validateAndFixTimeAnomalies st1
  let st3 := crossDayPass master now st2 minEligibleDate today
  let numDays := (today - minEligibleDate + 1).toNat
  let st4 := (List.range numDays).foldl
    (fun acc i => perDatePass master now acc (minEligibleDate + i)) st3
  let st5 := autoCheckoutSweep master now st4
  validateAndCleanupDuplicates st5

/-! ## Westlands duplicate marking (`process_user_attendance`) -/

/-- `BiometricETLPipeline.update_migration_status`: unlike the redginger
variant, the `WHERE` clause carries no punch time, so every event row of
the `(user, date, kind)` triple is flagged at once. -/
def westlandsUpdateMigration (events : List Event) (emp : String) (d : Int)
    (k : EvKind) (flag : MigStatus) : List Event :=
  events.map
    (fun e =>
      if e.emp == emp && e.date == d && e.kind == k then
        { e with migration := flag }
      else e)

/-- The already-exists branch of `process_user_attendance` for check-ins:
each fetched check-in log triggers one duplicate-marking update (all
updates hit the same rows). -/
def westlandsMarkCheckinsDuplicate (events : List Event)
    (checkinLogs : List Event) (emp : String) (d : Int) : List Event :=
  checkinLogs.foldl
    (fun acc _ => westlandsUpdateMigration acc emp d EvKind.checkin .duplicate)
    events

/-- A break punch of the processing day (`punch_type` is ignored by the
pairing logic and omitted). -/
structure BreakPunch where
  date : Int
  time : Nat
deriving DecidableEq, Repr

/-- The row inserted into `tymeplususerbreak`. -/
structure BreakRow where
  startDate : Int
  startTime : Nat
  endDate : Int
  endTime : Nat
  status : String
deriving DecidableEq, Repr

/-- The `punches.sort(key=punch_time)` comparison. -/
def breakPunchLe (a b : BreakPunch) : Bool := a.time ≤ b.time

/-- Per-user body of `process_type1`: skip users without a check-in session
or with an existing break for the day; with two or more punches, pair the
first two as start/end and insert a `manual` break only when the end is
strictly after the start and at most two hours later, marking exactly the
two used punches migrated; with a single punch, insert the `auto`
+30-minute break only at end of day.  The second component lists the
punches marked migrated. -/
def processType1User (hasCheckin : Bool) (hasBreakForDay : Bool)
    (endOfDay : Bool) (punches : List BreakPunch) :
    Option BreakRow × List BreakPunch :=
  if !hasCheckin then (none, [])
  else if hasBreakForDay then (none, [])
  else
    match sortByLe breakPunchLe punches with
    | p1 :: p2 :: _ =>
      let startDT := toTS p1.date p1.time
      let endDT := toTS p2.date p2.time
      if endDT > startDT && endDT ≤ startDT + 7200 then
        (some ⟨p1.date, p1.time, p2.date, p2.time, "manual"⟩, [p1, p2])
      else (none, [])
    | [p1] =>
      if endOfDay then
        let endDT := toTS p1.date p1.time + 1800
        (some ⟨p1.date, p1.time, dayOf endDT, timeOf endDT, "auto"⟩, [p1])
      else (none, [])
    | [] => (none, [])

/-! ## Store invariants and evolution relations -/

/-- Check-in date column of a row (`NULL`able). -/
def Session.ciDateOpt (s : Session) : Option Int :=
  s.checkin.map CheckinData.date

/-- Check-out date column of a row (`NULL`able). -/
def Session.coDateOpt (s : Session) : Option Int :=
  s.checkout.map CheckoutData.date

/-- No two rows share a non-`NULL` `(employee, checkindate)` key. -/
def UniqueCIKey (store : List Session) : Prop :=
  store.Pairwise (fun a b =>
    ¬(a.emp = b.emp ∧ a.ciDateOpt = b.ciDateOpt ∧ a.ciDateOpt.isSome = true))

/-- No two rows share a non-`NULL` `(employee, checkoutdate)` key. -/
def UniqueCOKey (store : List Session) : Prop :=
  store.Pairwise (fun a b =>
    ¬(a.emp = b.emp ∧ a.coDateOpt = b.coDateOpt ∧ a.coDateOpt.isSome = true))

/-- No in-range orphan rows (checkout without check-in). -/
def NoOrphanRows (store : List Session) : Prop :=
  ∀ s ∈ store, keptByOrphanFix s = true

/-- No rows matching either same-day time-anomaly rule. -/
def NoAnomalyRows (store : List Session) : Prop :=
  ∀ s ∈ store, anomalyRule1 s = false ∧ anomalyRule2 s = false

/-- A well-formed session store: distinct row ids, unique keys, no
orphans, no same-day anomalies — all properties the cycle's own cleanup
passes establish and its write paths maintain. -/
def GoodStore (store : List Session) : Prop :=
  (store.map Session.id).Nodup ∧ UniqueCIKey store ∧ UniqueCOKey store ∧
    NoOrphanRows store ∧ NoAnomalyRows store

/-- Every closed (already-applied) row survives to the second store
completely unchanged. -/
def ClosedPreserved (A B : List Session) : Prop :=
  ∀ s ∈ A, s.checkout.isSome = true → s ∈ B

/-- No row is deleted: every row keeps its id, employee and check-in
fields in the second store. -/
def RowsPreserved (A B : List Session) : Prop :=
  ∀ s ∈ A, ∃ s' ∈ B, s'.id = s.id ∧ s'.emp = s.emp ∧ s'.checkin = s.checkin

/-- The write paths of the reconciler only ever add fresh rows or close
open rows: closed rows are untouched and nothing is deleted. -/
def StoreEvolves (A B : List Session) : Prop :=
  ClosedPreserved A B ∧ RowsPreserved A B

/-! ## Concrete scenarios used by witnesses and counterexamples -/

/-- Master data lookup of the concrete scenarios: one active employee
`"u"` on a 09:00–17:00 shift without overtime. -/
def masterX : String → Option MasterData :=
  fun e => if e = "u" then some ⟨32400, 61200, 0⟩ else none

/-- An open session left from a previous cycle: check-in on day 1 at
22:00. -/
def oldOpenSession : Session :=
  ⟨1, "u", 32400, 61200, 0, some ⟨1, 79200, "late", "late"⟩, none⟩

/-- Pending events of the idempotence scenario: a check-in on day 2 at
00:30, a same-day checkout at 01:00 (thirty minutes later, failing the
one-hour rule against its own check-in) and a checkout on day 3 at
06:00. -/
def eventsX : List Event :=
  [⟨"u", 2, 1800, .checkin, .pending⟩,
   ⟨"u", 2, 3600, .checkout, .pending⟩,
   ⟨"u", 3, 21600, .checkout, .pending⟩]

/-- Initial state of the idempotence scenario. -/
def stX : SysState := ⟨[oldOpenSession], eventsX⟩

/-- Clock of the idempotence scenario: day 2 at 04:00, before the 05:00
auto-checkout deadline of the day-1 session. -/
def nowX : Int := 187200

/-- A closed session whose checkout fell on its check-in date (day 5). -/
def dupRowA : Session :=
  ⟨1, "u", 32400, 61200, 0, some ⟨5, 3600, "ontime", ""⟩,
   some ⟨5, 28800, "manual", "", 2, "Red Ginger Eatery Ltd"⟩⟩

/-- A second closed session with the same check-in date (day 5) but a
next-day checkout date. -/
def dupRowB : Session :=
  ⟨2, "u", 32400, 61200, 0, some ⟨5, 7200, "late", "late"⟩,
   some ⟨6, 18000, "auto", "", 2, "Red Ginger Eatery Ltd"⟩⟩

/-- A store holding two closed sessions that share `(employee, checkin
date)` while differing in checkout date. -/
def stDup : SysState := ⟨[dupRowA, dupRowB], []⟩

/-- An open session for `(u, day 5)` that already exists in the store. -/
def sessionC7 : Session :=
  ⟨3, "u", 32400, 61200, 0, some ⟨5, 30000, "ontime", ""⟩, none⟩

/-- State in which a pending check-in event duplicates `sessionC7`. -/
def stC7 : SysState :=
  ⟨[sessionC7], [⟨"u", 5, 30000, .checkin, .pending⟩]⟩

/-- **C3**: under the 10-minute grace-window policy of
`AttendanceProcessor.calculate_punch_status`, a check-in punch at or before
`shift_start + grace` is classified `ontime` with an empty reason, and a
punch strictly after it is classified `late` with reason `late`; in
particular the boundary punch at exactly `shift_start + grace` is `ontime`
and one second later is `late`.  (The hypothesis keeps the grace window
from wrapping past midnight, where the implementation compares against the
wrapped time of day.) -/
theorem checkin_grace_window_spec (p s : Nat) (h : s + 600 < 86400) :
    (p ≤ s + 600 → redgingerCheckinStatus p s = ("ontime", "")) ∧
    (s + 600 < p → redgingerCheckinStatus p s = ("late", "late")) := by
  have hg : (s + 600) % daySeconds = s + 600 := Nat.mod_eq_of_lt h
  constructor
  · intro hp
    simp [redgingerCheckinStatus, hg, hp]
  · intro hp
    simp [redgingerCheckinStatus, hg, Nat.not_le.mpr hp]

/-- Witness for `checkin_grace_window_spec`: shift start 09:00:00, grace
boundary 09:10:00 is `ontime`, 09:10:01 is `late`. -/
theorem checkin_grace_window_spec_witness :
    redgingerCheckinStatus 33000 32400 = ("ontime", "") ∧
    redgingerCheckinStatus 33001 32400 = ("late", "late") :=
  ⟨(checkin_grace_window_spec 33000 32400 (by decide)).1 (by decide),
   (checkin_grace_window_spec 33001 32400 (by decide)).2 (by decide)⟩

/-- **C2 (counterexample)**: the claim asserts an empty reason for the
`overtime` and `manual` checkout outcomes, but the westlands classifier
returns a reason equal to the status: an 18:00:00 checkout against a
17:00:00 shift end with overtime eligibility yields
`('overtime', 'overtime')`, whose reason is not empty. -/
theorem checkout_reason_counterexample :
    westlandsCalculatePunchStatus "18:00:00" "09:00:00" PunchKind.checkout
        (some "17:00:00") true = ("overtime", "overtime") ∧
      ("overtime", "overtime").2 ≠ "" := by
  constructor
  · decide
  · decide

/-- **C2 (amended)**: for every non-forced checkout with punch time `t` and
shift end `e`, if `t < e` the status is `earlycheckout` regardless of
overtime eligibility, and if `t ≥ e` the status is `overtime` when
overtime-eligible and `manual` otherwise; the redginger reconciler returns
an empty reason for the `overtime` and `manual` outcomes while the
westlands classifier returns a reason equal to the status. -/
theorem checkout_classification_amended (punchTS shiftEndTS : Int) (ot : Nat)
    (ps ss es : String) (pt et : Nat) (otb : Bool)
    (hp : westlandsParseTimeOpt ps = some pt)
    (he : westlandsParseTimeOpt es = some et) (hne : es ≠ "") :
    (punchTS < shiftEndTS →
      redgingerCheckoutStatus false punchTS shiftEndTS ot =
        ("earlycheckout", "earlycheckout")) ∧
    (shiftEndTS ≤ punchTS → ot ≠ 0 →
      redgingerCheckoutStatus false punchTS shiftEndTS ot = ("overtime", "")) ∧
    (shiftEndTS ≤ punchTS → ot = 0 →
      redgingerCheckoutStatus false punchTS shiftEndTS ot = ("manual", "")) ∧
    (pt < et →
      westlandsCalculatePunchStatus ps ss PunchKind.checkout (some es) otb =
        ("earlycheckout", "earlycheckout")) ∧
    (et ≤ pt → otb = true →
      westlandsCalculatePunchStatus ps ss PunchKind.checkout (some es) otb =
        ("overtime", "overtime")) ∧
    (et ≤ pt → otb = false →
      westlandsCalculatePunchStatus ps ss PunchKind.checkout (some es) otb =
        ("manual", "manual")) := by
  refine ⟨fun h1 => ?_, fun h1 h2 => ?_, fun h1 h2 => ?_,
    fun h1 => ?_, fun h1 h2 => ?_, fun h1 h2 => ?_⟩
  · simp [redgingerCheckoutStatus, h1]
  · simp [redgingerCheckoutStatus, Int.not_lt.mpr h1, h2]
  · simp [redgingerCheckoutStatus, Int.not_lt.mpr h1, h2]
  · simp [westlandsCalculatePunchStatus, hp, he, hne, h1]
  · subst h2
    simp [westlandsCalculatePunchStatus, hp, he, hne, Nat.not_lt.mpr h1]
  · subst h2
    simp [westlandsCalculatePunchStatus, hp, he, hne, Nat.not_lt.mpr h1]

/-- Witness for `checkout_classification_amended` at concrete times:
punch 18:00:00 parses to 64800 seconds, a redginger checkout one second
before the shift end is `earlycheckout`, and a westlands 18:00:00 checkout
against a 17:00:00 shift end without eligibility is `manual`. -/
theorem checkout_classification_amended_witness :
    westlandsParseTimeOpt "18:00:00" = some 64800 ∧
    redgingerCheckoutStatus false 61199 61200 1 =
      ("earlycheckout", "earlycheckout") ∧
    westlandsCalculatePunchStatus "18:00:00" "09:00:00" PunchKind.checkout
      (some "17:00:00") false = ("manual", "manual") :=
  ⟨by decide,
   (checkout_classification_amended 61199 61200 1 "18:00:00" "09:00:00"
      "17:00:00" 64800 61200 false (by decide) (by decide) (by decide)).1
     (by decide),
   (checkout_classification_amended 61199 61200 1 "18:00:00" "09:00:00"
      "17:00:00" 64800 61200 false (by decide) (by decide)
      (by decide)).2.2.2.2.2 (by decide) rfl⟩

/-- **C9**: the punch classifiers are total on both punch kinds (they are
functions into status/reason pairs by construction) and an unparsable time
string falls back to a default: `parse_time_string` reads it as midnight
(0 seconds) in the redginger implementation, while the westlands
implementation classifies it `late`/`late` for check-ins and
`manual`/`manual` for checkouts. -/
theorem classifier_totality_fallback (s ss : String) (se : Option String)
    (otb : Bool) :
    (redgingerParseTimeOpt s = none → parse_time_string s = 0) ∧
    (westlandsParseTimeOpt s = none →
      westlandsCalculatePunchStatus s ss PunchKind.checkin se otb =
          ("late", "late") ∧
        westlandsCalculatePunchStatus s ss PunchKind.checkout se otb =
          ("manual", "manual")) := by
  constructor
  · intro h
    simp [parse_time_string, h]
  · intro h
    unfold westlandsCalculatePunchStatus
    rw [h]
    exact ⟨rfl, rfl⟩

/-- Witness for `classifier_totality_fallback` on the unparsable string
`"garbage"`. -/
theorem classifier_totality_fallback_witness :
    parse_time_string "garbage" = 0 ∧
    westlandsCalculatePunchStatus "garbage" "09:00:00" PunchKind.checkout
      (some "17:00:00") true = ("manual", "manual") :=
  ⟨(classifier_totality_fallback "garbage" "09:00:00" (some "17:00:00")
      true).1 (by decide),
   ((classifier_totality_fallback "garbage" "09:00:00" (some "17:00:00")
      true).2 (by decide)).2⟩

/-- **C10**: in the break ETL, for an employee with a check-in session, no
existing break row, and at least two pending break punches, a `manual`
break using the first two punches (in time order) as start and end is
inserted exactly when the second punch is strictly after the first and at
most two hours later, and then exactly those two punches are marked
migrated; a non-positive or over-two-hour gap writes no break row and
marks nothing. -/
theorem break_type1_two_punch_guard (eod : Bool) (punches : List BreakPunch)
    (p1 p2 : BreakPunch) (rest : List BreakPunch)
    (hs : sortByLe breakPunchLe punches = p1 :: p2 :: rest) :
    (toTS p1.date p1.time < toTS p2.date p2.time ∧
        toTS p2.date p2.time ≤ toTS p1.date p1.time + 7200 →
      processType1User true false eod punches =
        (some ⟨p1.date, p1.time, p2.date, p2.time, "manual"⟩, [p1, p2])) ∧
    (toTS p2.date p2.time ≤ toTS p1.date p1.time ∨
        toTS p1.date p1.time + 7200 < toTS p2.date p2.time →
      processType1User true false eod punches = (none, [])) := by
  constructor
  · intro hok
    simp [processType1User, hs, hok.1, hok.2]
  · intro hbad
    rcases hbad with hbad | hbad
    · simp [processType1User, hs, Int.not_lt.mpr hbad]
    · simp [processType1User, hs, Int.not_le.mpr hbad]

/-- Witness for `break_type1_two_punch_guard`: punches at 13:00 and 13:30
on the same day produce the `manual` break row. -/
theorem break_type1_two_punch_guard_witness :
    processType1User true false false [⟨0, 46800⟩, ⟨0, 48600⟩] =
      (some ⟨0, 46800, 0, 48600, "manual"⟩, [⟨0, 46800⟩, ⟨0, 48600⟩]) :=
  (break_type1_two_punch_guard false [⟨0, 46800⟩, ⟨0, 48600⟩]
      ⟨0, 46800⟩ ⟨0, 48600⟩ [] (by decide)).1 (by decide)

/-- **C8**: on a same-day session (with an in-range date, the scanner's
minimum-eligible-date contract) whose checkout time precedes its check-in
time, or whose check-in is at or after 12:00 while the checkout is before
06:00, the anomaly pass clears exactly the checkout column group (reopening
the session) and leaves the check-in fields and every other column of the
row unchanged; sessions matching neither rule pass through untouched, and
no row is deleted (the store length is preserved). -/
theorem anomaly_scanner_clears_checkout (st : SysState) (s : Session)
    (ci : CheckinData) (co : CheckoutData)
    (hmem : s ∈ st.store) (hci : s.checkin = some ci)
    (hco : s.checkout = some co) (hsame : ci.date = co.date)
    (hmin : minEligibleDate ≤ ci.date) :
    ((co.time < ci.time ∨ (43200 ≤ ci.time ∧ co.time < 21600)) →
      { s with checkout := none } ∈ (validateAndFixTimeAnomalies st).store ∧
      ({ s with checkout := none }).checkin = s.checkin ∧
      ({ s with checkout := none }).id = s.id ∧
      ({ s with checkout := none }).emp = s.emp ∧
      ({ s with checkout := none }).shiftStart = s.shiftStart ∧
      ({ s with checkout := none }).shiftEnd = s.shiftEnd ∧
      ({ s with checkout := none }).overtimeid = s.overtimeid ∧
      ({ s with checkout := none }).checkout = none) ∧
    (¬co.time < ci.time → ¬(43200 ≤ ci.time ∧ co.time < 21600) →
      s ∈ (validateAndFixTimeAnomalies st).store) ∧
    (validateAndFixTimeAnomalies st).store.length = st.store.length := by
  refine ⟨?_, ?_, ?_⟩
  · intro hcond
    have hlt : co.time < ci.time := by
      rcases hcond with h | ⟨h1, h2⟩
      · exact h
      · omega
    have hr1 : anomalyRule1 s = true := by
      simp only [anomalyRule1, hci, hco, Bool.and_eq_true, beq_iff_eq,
        decide_eq_true_eq]
      omega
    have hmem1 : clearCheckout s ∈ applyAnomalyRule anomalyRule1 st.store := by
      unfold applyAnomalyRule
      exact List.mem_map.mpr ⟨s, hmem, by simp [hr1]⟩
    have hr2 : anomalyRule2 (clearCheckout s) = false := by
      simp [anomalyRule2, clearCheckout, hci]
    have hmem2 : clearCheckout s ∈
        (validateAndFixTimeAnomalies st).store := by
      unfold validateAndFixTimeAnomalies applyAnomalyRule
      exact List.mem_map.mpr ⟨clearCheckout s, hmem1, by simp [hr2]⟩
    exact ⟨hmem2, rfl, rfl, rfl, rfl, rfl, rfl, rfl⟩
  · intro h1 h2
    have hr1 : anomalyRule1 s = false := by
      rw [Bool.eq_false_iff]
      intro hcon
      simp only [anomalyRule1, hci, hco, Bool.and_eq_true, beq_iff_eq,
        decide_eq_true_eq] at hcon
      omega
    have hr2 : anomalyRule2 s = false := by
      rw [Bool.eq_false_iff]
      intro hcon
      simp only [anomalyRule2, hci, hco, Bool.and_eq_true, beq_iff_eq,
        decide_eq_true_eq] at hcon
      omega
    have hmem1 : s ∈ applyAnomalyRule anomalyRule1 st.store := by
      unfold applyAnomalyRule
      exact List.mem_map.mpr ⟨s, hmem, by simp [hr1]⟩
    unfold validateAndFixTimeAnomalies applyAnomalyRule
    exact List.mem_map.mpr ⟨s, hmem1, by simp [hr2]⟩
  · unfold validateAndFixTimeAnomalies applyAnomalyRule
    simp

/-- Witness for `anomaly_scanner_clears_checkout`: a 14:00 check-in with a
same-day 05:30 checkout is cleared and reopened. -/
theorem anomaly_scanner_clears_checkout_witness :
    ({ id := 7, emp := "w", shiftStart := 32400, shiftEnd := 61200,
       overtimeid := 0, checkin := some ⟨3, 50400, "late", "late"⟩,
       checkout := none } : Session) ∈
      (validateAndFixTimeAnomalies
        ⟨[⟨7, "w", 32400, 61200, 0, some ⟨3, 50400, "late", "late"⟩,
           some ⟨3, 19800, "earlycheckout", "earlycheckout", 2, "L"⟩⟩],
         []⟩).store :=
  ((anomaly_scanner_clears_checkout
      ⟨[⟨7, "w", 32400, 61200, 0, some ⟨3, 50400, "late", "late"⟩,
         some ⟨3, 19800, "earlycheckout", "earlycheckout", 2, "L"⟩⟩], []⟩
      ⟨7, "w", 32400, 61200, 0, some ⟨3, 50400, "late", "late"⟩,
       some ⟨3, 19800, "earlycheckout", "earlycheckout", 2, "L"⟩⟩
      ⟨3, 50400, "late", "late"⟩
      ⟨3, 19800, "earlycheckout", "earlycheckout", 2, "L"⟩
      (by decide) rfl rfl rfl (by decide)).1
    (Or.inl (by decide))).1

/-- The latest-check-in scan returns its accumulator or a list element. -/
theorem pickLatestAux_mem (acc : Session) (l : List Session) :
    pickLatestAux acc l = acc ∨ pickLatestAux acc l ∈ l := by
  induction l generalizing acc with
  | nil => exact Or.inl rfl
  | cons x xs ih =>
    simp only [pickLatestAux]
    rcases ih (if x.ciTimeD > acc.ciTimeD then x else acc) with h | h
    · rw [h]
      split
      · exact Or.inr (List.mem_cons_self x xs)
      · exact Or.inl rfl
    · exact Or.inr (List.mem_cons_of_mem x h)

/-- A session selected by `pickLatestCheckin` belongs to the scanned list. -/
theorem pickLatestCheckin_mem {l : List Session} {s : Session}
    (h : pickLatestCheckin l = some s) : s ∈ l := by
  cases l with
  | nil => cases h
  | cons x xs =>
    simp only [pickLatestCheckin, Option.some.injEq] at h
    rcases pickLatestAux_mem x xs with h' | h'
    · rw [h'] at h
      subst h
      exact List.mem_cons_self x xs
    · rw [h] at h'
      exact List.mem_cons_of_mem x h'

/-- Any session returned by the backward check-in search is an open session
of the given employee present in the store. -/
theorem findCheckinAux_spec (store : List Session) (emp : String)
    (coDate : Int) (coTime : Nat) (dates : List Int) (cr : Session)
    (h : findCheckinAux store emp coDate coTime dates = some cr) :
    cr ∈ store ∧ cr.checkout = none ∧ cr.emp = emp := by
  induction dates with
  | nil => cases h
  | cons dd rest ih =>
    unfold findCheckinAux at h
    cases hp : pickLatestCheckin (store.filter
        (fun s => s.emp == emp && s.checkout.isNone && s.ciDateIs dd)) with
    | none =>
      simp only [hp] at h
      exact ih h
    | some s =>
      simp only [hp] at h
      by_cases hgt : toTS coDate coTime > toTS s.ciDateD s.ciTimeD
      · rw [if_pos hgt] at h
        cases h
        have hmem := pickLatestCheckin_mem hp
        have hf := List.mem_filter.mp hmem
        have hpred := hf.2
        simp only [Bool.and_eq_true, beq_iff_eq,
          Option.isNone_iff_eq_none] at hpred
        exact ⟨hf.1, hpred.1.2, hpred.1.1⟩
      · rw [if_neg hgt] at h
        exact ih h

/-- `find_checkin_for_checkout` returns an open session of the employee
from the store. -/
theorem findCheckinForCheckout_spec {store : List Session} {emp : String}
    {coDate : Int} {coTime : Nat} {cr : Session}
    (h : findCheckinForCheckout store emp coDate coTime = some cr) :
    cr ∈ store ∧ cr.checkout = none ∧ cr.emp = emp :=
  findCheckinAux_spec store emp coDate coTime _ cr h

/-- Arithmetic content of a successful `validate_checkout_time_logic`: the
checkout timestamp strictly exceeds the check-in timestamp, and on the same
calendar date by at least one hour. -/
theorem validate_checkout_sound {ciDate : Int} {ciTime : Nat} {coDate : Int}
    {coTime : Nat}
    (h : validate_checkout_time_logic ciDate ciTime coDate coTime = true) :
    toTS ciDate ciTime < toTS coDate coTime ∧
    (ciDate = coDate → toTS ciDate ciTime + 3600 ≤ toTS coDate coTime) := by
  unfold validate_checkout_time_logic at h
  split_ifs at h with h1 h2
  rw [Bool.and_eq_true] at h2
  simp only [beq_iff_eq, decide_eq_true_eq] at h2
  simp only [not_le] at h1
  simp only [toTS] at h1 h2 ⊢
  exact ⟨h1, fun hd => by omega⟩

/-- Decompose membership in a closed-by-update store. -/
theorem mem_closeSession {store : List Session} {sid : Nat}
    {co : CheckoutData} {s' : Session} (h : s' ∈ closeSession store sid co) :
    ∃ t ∈ store,
      s' = if t.id == sid then { t with checkout := some co } else t := by
  unfold closeSession at h
  rcases List.mem_map.mp h with ⟨t, ht, heq⟩
  exact ⟨t, ht, heq.symm⟩

/-- `processCheckout` with missing master data is a no-op. -/
theorem processCheckout_noMaster {master : String → Option MasterData}
    {store : List Session} {emp : String} {coDate : Int} {coTime : Nat}
    {forceAuto : Bool} (hm : master emp = none) :
    processCheckout master store emp coDate coTime forceAuto
      = (store, false) := by
  simp [processCheckout, hm]

/-- `processCheckout` is absorbed when a closed session already exists on
the checkout date. -/
theorem processCheckout_absorbed {master : String → Option MasterData}
    {store : List Session} {emp : String} {coDate : Int} {coTime : Nat}
    {forceAuto : Bool} {bm : MasterData} (hm : master emp = some bm)
    (hany : store.any (fun s => s.emp == emp && s.coDateIs coDate) = true) :
    processCheckout master store emp coDate coTime forceAuto
      = (store, true) := by
  simp [processCheckout, hm, hany]

/-- `processCheckout` defers when no matching open check-in is found. -/
theorem processCheckout_noMatch {master : String → Option MasterData}
    {store : List Session} {emp : String} {coDate : Int} {coTime : Nat}
    {forceAuto : Bool} {bm : MasterData} (hm : master emp = some bm)
    (hany : store.any (fun s => s.emp == emp && s.coDateIs coDate) = false)
    (hfind : findCheckinForCheckout store emp coDate coTime = none) :
    processCheckout master store emp coDate coTime forceAuto
      = (store, false) := by
  simp [processCheckout, hm, hany, hfind]

/-- `processCheckout` defers when the chronology validation fails. -/
theorem processCheckout_badTime {master : String → Option MasterData}
    {store : List Session} {emp : String} {coDate : Int} {coTime : Nat}
    {forceAuto : Bool} {bm : MasterData} {cr : Session} {ci : CheckinData}
    (hm : master emp = some bm)
    (hany : store.any (fun s => s.emp == emp && s.coDateIs coDate) = false)
    (hfind : findCheckinForCheckout store emp coDate coTime = some cr)
    (hcin : cr.checkin = some ci)
    (hval : validate_checkout_time_logic ci.date ci.time coDate coTime
      = false) :
    processCheckout master store emp coDate coTime forceAuto
      = (store, false) := by
  simp [processCheckout, hm, hany, hfind, hcin, hval]

/-- The close branch of `processCheckout`. -/
theorem processCheckout_close {master : String → Option MasterData}
    {store : List Session} {emp : String} {coDate : Int} {coTime : Nat}
    {forceAuto : Bool} {bm : MasterData} {cr : Session} {ci : CheckinData}
    (hm : master emp = some bm)
    (hany : store.any (fun s => s.emp == emp && s.coDateIs coDate) = false)
    (hfind : findCheckinForCheckout store emp coDate coTime = some cr)
    (hcin : cr.checkin = some ci)
    (hval : validate_checkout_time_logic ci.date ci.time coDate coTime
      = true) :
    processCheckout master store emp coDate coTime forceAuto =
      (closeSession store cr.id
        ⟨coDate, coTime,
         (redgingerCheckoutStatus forceAuto (toTS coDate coTime)
           (toTS ci.date bm.shiftEnd) cr.overtimeid).1,
         (redgingerCheckoutStatus forceAuto (toTS coDate coTime)
           (toTS ci.date bm.shiftEnd) cr.overtimeid).2,
         2, "Red Ginger Eatery Ltd"⟩, true) := by
  simp [processCheckout, hm, hany, hfind, hcin, hval]

/-- Case analysis of `processCheckout`: either the store is returned
untouched, or the close branch ran — master data was present, the
already-applied guard found no closed session on the checkout date, the
backward search produced an open session whose chronology validated, and
the result is that session closed with the classified status. -/
theorem processCheckout_cases (master : String → Option MasterData)
    (store : List Session) (emp : String) (coDate : Int) (coTime : Nat)
    (forceAuto : Bool) :
    (processCheckout master store emp coDate coTime forceAuto).1 = store ∨
    ∃ cr ci bm,
      master emp = some bm ∧
      store.any (fun s => s.emp == emp && s.coDateIs coDate) = false ∧
      findCheckinForCheckout store emp coDate coTime = some cr ∧
      cr.checkin = some ci ∧
      validate_checkout_time_logic ci.date ci.time coDate coTime = true ∧
      (processCheckout master store emp coDate coTime forceAuto).1 =
        closeSession store cr.id
          ⟨coDate, coTime,
           (redgingerCheckoutStatus forceAuto (toTS coDate coTime)
             (toTS ci.date bm.shiftEnd) cr.overtimeid).1,
           (redgingerCheckoutStatus forceAuto (toTS coDate coTime)
             (toTS ci.date bm.shiftEnd) cr.overtimeid).2,
           2, "Red Ginger Eatery Ltd"⟩ := by
  cases hm : master emp with
  | none => exact Or.inl (by rw [processCheckout_noMaster hm])
  | some bm =>
    cases hany : store.any (fun s => s.emp == emp && s.coDateIs coDate) with
    | true => exact Or.inl (by rw [processCheckout_absorbed hm hany])
    | false =>
      cases hfind : findCheckinForCheckout store emp coDate coTime with
      | none => exact Or.inl (by rw [processCheckout_noMatch hm hany hfind])
      | some cr =>
        cases hcin : cr.checkin with
        | none =>
          left
          simp [processCheckout, hm, hany, hfind, hcin]
        | some ci =>
          cases hval : validate_checkout_time_logic ci.date ci.time coDate
              coTime with
          | false =>
            exact Or.inl
              (by rw [processCheckout_badTime hm hany hfind hcin hval])
          | true =>
            right
            exact ⟨cr, ci, bm, rfl, rfl, rfl, hcin, hval,
              by rw [processCheckout_close hm hany hfind hcin hval]⟩

/-- When the chronology validation rejects the candidate checkout,
`processCheckout` leaves the store unchanged. -/
theorem processCheckout_rejected (master : String → Option MasterData)
    (store : List Session) (emp : String) (coDate : Int) (coTime : Nat)
    (forceAuto : Bool) (cr : Session) (ci : CheckinData)
    (hfind : findCheckinForCheckout store emp coDate coTime = some cr)
    (hcin : cr.checkin = some ci)
    (hval : validate_checkout_time_logic ci.date ci.time coDate coTime
      = false) :
    (processCheckout master store emp coDate coTime forceAuto).1 = store := by
  rcases processCheckout_cases master store emp coDate coTime forceAuto with
    h | ⟨cr', ci', bm, _, _, hfind', hcin', hval', _⟩
  · exact h
  · rw [hfind] at hfind'
    cases hfind'
    rw [hcin] at hcin'
    cases hcin'
    rw [hval] at hval'
    exact Bool.noConfusion hval'

/-- **C4**: every session row that `process_checkout` writes (whether the
checkout is real or forced) has its checkout timestamp strictly after its
check-in timestamp, and at least one configured hour (3600 s) after it when
both fall on the same calendar date; and a candidate checkout failing
`validate_checkout_time_logic` is rejected, leaving the store (and hence
the matched open session) unchanged. -/
theorem checkout_chronology_guard (master : String → Option MasterData)
    (store : List Session) (emp : String) (coDate : Int) (coTime : Nat)
    (forceAuto : Bool) (hids : (store.map Session.id).Nodup) :
    (∀ s' ∈ (processCheckout master store emp coDate coTime forceAuto).1,
      s' ∈ store ∨
        ∃ ci co, s'.checkin = some ci ∧ s'.checkout = some co ∧
          toTS ci.date ci.time < toTS co.date co.time ∧
          (ci.date = co.date →
            toTS ci.date ci.time + 3600 ≤ toTS co.date co.time)) ∧
    (∀ cr ci, findCheckinForCheckout store emp coDate coTime = some cr →
      cr.checkin = some ci →
      validate_checkout_time_logic ci.date ci.time coDate coTime = false →
      (processCheckout master store emp coDate coTime forceAuto).1
        = store) := by
  constructor
  · intro s' hs'
    rcases processCheckout_cases master store emp coDate coTime forceAuto with
      h | ⟨cr, ci, bm, _, _, hfind, hcin, hval, heq⟩
    · rw [h] at hs'
      exact Or.inl hs'
    · rw [heq] at hs'
      rcases mem_closeSession hs' with ⟨t, ht, hteq⟩
      by_cases hid : t.id == cr.id
      · have hcr := findCheckinForCheckout_spec hfind
        have ht_eq : t = cr :=
          List.inj_on_of_nodup_map hids ht hcr.1 (beq_iff_eq.mp hid)
        subst ht_eq
        rw [if_pos hid] at hteq
        subst hteq
        right
        exact ⟨ci, _, hcin, rfl, (validate_checkout_sound hval).1,
          (validate_checkout_sound hval).2⟩
      · rw [if_neg hid] at hteq
        subst hteq
        exact Or.inl ht
  · intro cr ci hfind hcin hval
    exact processCheckout_rejected master store emp coDate coTime forceAuto
      cr ci hfind hcin hval

/-- Witness for `checkout_chronology_guard`: a same-day 09:30 checkout
against an open 09:00 check-in fails the one-hour rule and the store is
returned unchanged. -/
theorem checkout_chronology_guard_witness :
    (processCheckout (fun e => if e = "u" then some ⟨32400, 61200, 0⟩ else none)
        [⟨4, "u", 32400, 61200, 0, some ⟨2, 32400, "ontime", ""⟩, none⟩]
        "u" 2 34200 false).1 =
      [⟨4, "u", 32400, 61200, 0, some ⟨2, 32400, "ontime", ""⟩, none⟩] :=
  (checkout_chronology_guard
      (fun e => if e = "u" then some ⟨32400, 61200, 0⟩ else none)
      [⟨4, "u", 32400, 61200, 0, some ⟨2, 32400, "ontime", ""⟩, none⟩]
      "u" 2 34200 false (by decide)).2
    ⟨4, "u", 32400, 61200, 0, some ⟨2, 32400, "ontime", ""⟩, none⟩
    ⟨2, 32400, "ontime", ""⟩ (by decide) rfl (by decide)

/-- Folding `min` over a constant list returns that constant. -/
theorem foldl_min_const (n : Nat) :
    ∀ (xs : List Nat) (acc : Nat), (∀ x ∈ xs, x = n) → acc = n →
      xs.foldl min acc = n
  | [], _, _, hacc => hacc
  | x :: xs, acc, hall, hacc => by
    simp only [List.foldl_cons]
    refine foldl_min_const n xs _
      (fun y hy => hall y (List.mem_cons_of_mem x hy)) ?_
    rw [hall x (List.mem_cons_self x xs), hacc]
    exact Nat.min_self n

/-- `minIdOfList` of a non-empty constant list. -/
theorem minIdOfList_const {l : List Nat} {n : Nat} (hne : l ≠ [])
    (hall : ∀ x ∈ l, x = n) : minIdOfList l = n := by
  cases l with
  | nil => exact absurd rfl hne
  | cons x xs =>
    unfold minIdOfList
    exact foldl_min_const n xs x
      (fun y hy => hall y (List.mem_cons_of_mem x hy))
      (hall x (List.mem_cons_self x xs))

/-- Distinct ids identify rows. -/
theorem session_id_inj {store : List Session}
    (hids : (store.map Session.id).Nodup) {a b : Session}
    (ha : a ∈ store) (hb : b ∈ store) (h : a.id = b.id) : a = b :=
  List.inj_on_of_nodup_map hids ha hb h

/-- A row matching a checkout date is closed. -/
theorem coDateIs_not_isNone {s : Session} {d : Int}
    (h : s.coDateIs d = true) : s.checkout.isNone = false := by
  unfold Session.coDateIs at h
  cases hc : s.checkout with
  | none => rw [hc] at h; exact Bool.noConfusion h
  | some co => simp [hc]

/-- The closed groups are untouched by the open-row deduplication pass
(it removes only open rows). -/
theorem closedGroupIds_dedupOpen (store : List Session) (emp : String)
    (d : Int) :
    closedGroupIds (dedupOpenSessions store) emp d
      = closedGroupIds store emp d := by
  unfold closedGroupIds dedupOpenSessions
  rw [List.filter_filter]
  congr 1
  apply List.filter_congr
  intro x hx
  cases hp : (x.emp == emp && x.coDateIs d) with
  | false => simp [hp]
  | true =>
    have hco : x.checkout.isNone = false :=
      coDateIs_not_isNone (Bool.and_eq_true .. ▸ hp).2
    simp [hp, hco]

/-- **C6 (counterexample)**: two closed sessions sharing `(employee,
check-in date 5)` but with different checkout dates both survive the
Deduplication Pass, so the pass does not guarantee at most one row per
`(employee, checkin date)` for all prior store contents. -/
theorem dedup_pass_counterexample :
    (validateAndCleanupDuplicates stDup).store = [dupRowA, dupRowB] ∧
    dupRowA.emp = dupRowB.emp ∧
    dupRowA.ciDateIs 5 = true ∧ dupRowB.ciDateIs 5 = true ∧
    dupRowA ≠ dupRowB := by
  refine ⟨by decide, rfl, by decide, by decide, by decide⟩

/-- **C6 (amended)**: after the Deduplication Pass there is at most one
open session per `(employee, checkin date)` and at most one closed session
per `(employee, checkout date)`, for every store with distinct row ids;
each surviving row in a duplicate group is the one with the lowest
identity.  (Two closed rows sharing a check-in date but differing in
checkout date can both survive, as the counterexample shows.) -/
theorem dedup_pass_amended (st : SysState)
    (hids : (st.store.map Session.id).Nodup) :
    (∀ a ∈ (validateAndCleanupDuplicates st).store,
      ∀ b ∈ (validateAndCleanupDuplicates st).store,
      a.checkout = none → b.checkout = none → a.emp = b.emp →
      ∀ ca cb, a.checkin = some ca → b.checkin = some cb →
      ca.date = cb.date → a = b) ∧
    (∀ a ∈ (validateAndCleanupDuplicates st).store,
      ∀ b ∈ (validateAndCleanupDuplicates st).store,
      a.emp = b.emp →
      ∀ ca cb, a.checkout = some ca → b.checkout = some cb →
      ca.date = cb.date → a = b) ∧
    (∀ s ∈ (validateAndCleanupDuplicates st).store, ∀ ci,
      s.checkout = none → s.checkin = some ci →
      s.id = minIdOfList (openGroupIds st.store s.emp ci.date)) ∧
    (∀ s ∈ (validateAndCleanupDuplicates st).store, ∀ co,
      s.checkout = some co →
      s.id = minIdOfList (closedGroupIds st.store s.emp co.date)) := by
  have hpost : ∀ s ∈ (validateAndCleanupDuplicates st).store,
      s ∈ st.store ∧
      (∀ ci, s.checkout = none → s.checkin = some ci →
        s.id = minIdOfList (openGroupIds st.store s.emp ci.date)) ∧
      (∀ co, s.checkout = some co →
        s.id = minIdOfList (closedGroupIds st.store s.emp co.date)) := by
    intro s hs
    have h1 := List.mem_filter.mp hs
    have h2 := List.mem_filter.mp h1.1
    refine ⟨h2.1, fun ci hco hci => ?_, fun co hco => ?_⟩
    · have hk := h2.2
      rw [hco, hci] at hk
      simp only [Option.isNone_none, if_true, beq_iff_eq] at hk
      exact hk
    · have hk := h1.2
      rw [hco] at hk
      simp only [beq_iff_eq] at hk
      rw [hk, closedGroupIds_dedupOpen]
  refine ⟨?_, ?_, fun s hs => (hpost s hs).2.1, fun s hs => (hpost s hs).2.2⟩
  · intro a ha b hb hao hbo hemp ca cb hca hcb hdate
    have hia := (hpost a ha).2.1 ca hao hca
    have hib := (hpost b hb).2.1 cb hbo hcb
    rw [hemp, hdate] at hia
    exact session_id_inj hids (hpost a ha).1 (hpost b hb).1 (hia.trans hib.symm)
  · intro a ha b hb hemp ca cb hca hcb hdate
    have hia := (hpost a ha).2.2 ca hca
    have hib := (hpost b hb).2.2 cb hcb
    rw [hemp, hdate] at hia
    exact session_id_inj hids (hpost a ha).1 (hpost b hb).1 (hia.trans hib.symm)

/-- Witness for `dedup_pass_amended`: on a store with two duplicate open
rows for `(u, day 5)`, the surviving row is the group's minimum id. -/
theorem dedup_pass_amended_witness :
    ({ id := 1, emp := "u", shiftStart := 0, shiftEnd := 0, overtimeid := 0,
       checkin := some ⟨5, 3600, "ontime", ""⟩, checkout := none } :
        Session).id =
      minIdOfList (openGroupIds
        [⟨1, "u", 0, 0, 0, some ⟨5, 3600, "ontime", ""⟩, none⟩,
         ⟨2, "u", 0, 0, 0, some ⟨5, 7200, "late", "late"⟩, none⟩] "u" 5) :=
  (dedup_pass_amended
      ⟨[⟨1, "u", 0, 0, 0, some ⟨5, 3600, "ontime", ""⟩, none⟩,
        ⟨2, "u", 0, 0, 0, some ⟨5, 7200, "late", "late"⟩, none⟩], []⟩
      (by decide)).2.2.1
    ⟨1, "u", 0, 0, 0, some ⟨5, 3600, "ontime", ""⟩, none⟩ (by decide)
    ⟨5, 3600, "ontime", ""⟩ rfl rfl

/-- An event matching the `(user, date, kind)` triple is flagged by the
westlands migration update. -/
theorem westlandsUpdateMigration_mem_marked {events : List Event} {e : Event}
    {emp : String} {d : Int} {k : EvKind} {flag : MigStatus}
    (he : e ∈ events) (hemp : e.emp = emp) (hd : e.date = d)
    (hk : e.kind = k) :
    { e with migration := flag } ∈
      westlandsUpdateMigration events emp d k flag := by
  unfold westlandsUpdateMigration
  refine List.mem_map.mpr ⟨e, he, ?_⟩
  simp [hemp, hd, hk]

/-- An event already carrying the written flag passes through the
westlands migration update unchanged. -/
theorem westlandsUpdateMigration_mem_fix {events : List Event} {x : Event}
    {emp : String} {d : Int} {k : EvKind} {flag : MigStatus}
    (hx : x ∈ events) (hm : x.migration = flag) :
    x ∈ westlandsUpdateMigration events emp d k flag := by
  unfold westlandsUpdateMigration
  refine List.mem_map.mpr ⟨x, hx, ?_⟩
  split
  · cases x
    simp only at hm
    rw [hm]
  · rfl

/-- Flag preservation through the per-log marking fold. -/
theorem westlandsMarkFold_preserves {emp : String} {d : Int} {x : Event}
    (hm : x.migration = MigStatus.duplicate) :
    ∀ (logs : List Event) (evs : List Event), x ∈ evs →
      x ∈ logs.foldl
        (fun acc _ =>
          westlandsUpdateMigration acc emp d EvKind.checkin .duplicate) evs
  | [], _, hx => hx
  | c :: rest, evs, hx => by
    simp only [List.foldl_cons]
    exact westlandsMarkFold_preserves hm rest _
      (westlandsUpdateMigration_mem_fix hx hm)

/-- **C7 (counterexample)**: an incoming check-in event whose `(employee,
date)` already has a session leaves the redginger state entirely
unchanged — in particular the source event keeps migration flag pending
("No"), so it is returned again by later cycles rather than being marked
applied or duplicate. -/
theorem checkin_existing_not_marked_counterexample :
    (processCheckin masterX nowX stC7 "u" 5 30000).1 = stC7 ∧
    stC7.events = [⟨"u", 5, 30000, EvKind.checkin, MigStatus.pending⟩] := by
  exact ⟨by decide, rfl⟩

/-- **C7 (amended)**: for every incoming check-in event whose `(employee,
date)` already has a session in the Session Store, the redginger
reconciler inserts no new row and leaves the store and the source events
(with their pending flags) entirely unchanged, so the event is re-fetched
and re-absorbed by later cycles; the westlands pipeline instead marks
every such source check-in event duplicate. -/
theorem checkin_existing_session_amended
    (master : String → Option MasterData) (now : Int) (st : SysState)
    (emp : String) (d : Int) (t : Nat)
    (hex : st.store.any (fun s => s.emp == emp && s.ciDateIs d) = true) :
    (processCheckin master now st emp d t).1 = st ∧
    (∀ (events checkinLogs : List Event) (e : Event),
      checkinLogs ≠ [] → e ∈ events → e.emp = emp → e.date = d →
      e.kind = EvKind.checkin →
      { e with migration := MigStatus.duplicate } ∈
        westlandsMarkCheckinsDuplicate events checkinLogs emp d) := by
  constructor
  · cases hm : master emp with
    | none => simp [processCheckin, hm]
    | some bm => simp [processCheckin, hm, hex]
  · intro events checkinLogs e hne he hemp hd hk
    cases checkinLogs with
    | nil => exact absurd rfl hne
    | cons c rest =>
      unfold westlandsMarkCheckinsDuplicate
      simp only [List.foldl_cons]
      exact westlandsMarkFold_preserves rfl rest _
        (westlandsUpdateMigration_mem_marked he hemp hd hk)

/-- Witness for `checkin_existing_session_amended` at the concrete
duplicate-check-in state. -/
theorem checkin_existing_session_amended_witness :
    (processCheckin masterX nowX
      ⟨[sessionC7], [⟨"u", 5, 32400, .checkin, .pending⟩]⟩ "u" 5 32400).1 =
      ⟨[sessionC7], [⟨"u", 5, 32400, .checkin, .pending⟩]⟩ :=
  (checkin_existing_session_amended masterX nowX
      ⟨[sessionC7], [⟨"u", 5, 32400, .checkin, .pending⟩]⟩ "u" 5 32400
      (by decide)).1

/-- **C1 (counterexample)**: running `sync_incremental` a second time over
the same punch events does not reproduce the first run's Session Store
state.  In the scenario, the day-2 checkout at 01:00 is deferred by the
one-hour rule against its own day-2 check-in in cycle one; in cycle two the
day-2 session is already closed (by the day-3 checkout), so the backward
search matches the still-open day-1 session and closes it — the second
cycle changes the store. -/
theorem full_cycle_idempotence_counterexample :
    (syncIncremental masterX nowX (syncIncremental masterX nowX stX)).store ≠
      (syncIncremental masterX nowX stX).store := by
  decide

/-- `StoreEvolves` is reflexive. -/
theorem storeEvolves_refl (A : List Session) : StoreEvolves A A :=
  ⟨fun s hs _ => hs, fun s hs => ⟨s, hs, rfl, rfl, rfl⟩⟩

/-- `StoreEvolves` composes. -/
theorem storeEvolves_trans {A B C : List Session} (h1 : StoreEvolves A B)
    (h2 : StoreEvolves B C) : StoreEvolves A C := by
  refine ⟨fun s hs hc => h2.1 s (h1.1 s hs hc) hc, fun s hs => ?_⟩
  rcases h1.2 s hs with ⟨s', hs', hid, hemp, hcin⟩
  rcases h2.2 s' hs' with ⟨s'', hs'', hid', hemp', hcin'⟩
  exact ⟨s'', hs'', hid'.trans hid, hemp'.trans hemp, hcin'.trans hcin⟩

/-- A map that fixes every element of a list is the identity on it. -/
theorem map_eq_self_of {α : Type} {f : α → α} :
    ∀ {l : List α}, (∀ x ∈ l, f x = x) → l.map f = l
  | [], _ => rfl
  | x :: xs, h => by
    simp only [List.map_cons]
    rw [h x (List.mem_cons_self x xs),
      map_eq_self_of (fun y hy => h y (List.mem_cons_of_mem x hy))]

/-- The check-in key in `Option` form versus the SQL comparison form. -/
theorem ciDateOpt_eq_some_iff {s : Session} {d : Int} :
    s.ciDateOpt = some d ↔ s.ciDateIs d = true := by
  unfold Session.ciDateOpt Session.ciDateIs
  cases s.checkin with
  | none => simp
  | some ci => simp

/-- The check-out key in `Option` form versus the SQL comparison form. -/
theorem coDateOpt_eq_some_iff {s : Session} {d : Int} :
    s.coDateOpt = some d ↔ s.coDateIs d = true := by
  unfold Session.coDateOpt Session.coDateIs
  cases s.checkout with
  | none => simp
  | some co => simp

/-- Under key uniqueness, two rows carrying the same non-`NULL`
`(employee, checkindate)` key are the same row. -/
theorem uniqueCI_same_key {store : List Session} (hu : UniqueCIKey store)
    {a b : Session} (ha : a ∈ store) (hb : b ∈ store) (hemp : a.emp = b.emp)
    {d : Int} (hda : a.ciDateIs d = true) (hdb : b.ciDateIs d = true) :
    a = b := by
  by_contra hne
  have hsym : Symmetric (fun a b : Session =>
      ¬(a.emp = b.emp ∧ a.ciDateOpt = b.ciDateOpt
        ∧ a.ciDateOpt.isSome = true)) := by
    intro x y hxy hc
    exact hxy ⟨hc.1.symm, hc.2.1.symm, hc.2.1 ▸ hc.2.2⟩
  exact (hu.forall hsym ha hb hne)
    ⟨hemp, (ciDateOpt_eq_some_iff.mpr hda).trans
        (ciDateOpt_eq_some_iff.mpr hdb).symm,
      by rw [ciDateOpt_eq_some_iff.mpr hda]; rfl⟩

/-- Under key uniqueness, two rows carrying the same non-`NULL`
`(employee, checkoutdate)` key are the same row. -/
theorem uniqueCO_same_key {store : List Session} (hu : UniqueCOKey store)
    {a b : Session} (ha : a ∈ store) (hb : b ∈ store) (hemp : a.emp = b.emp)
    {d : Int} (hda : a.coDateIs d = true) (hdb : b.coDateIs d = true) :
    a = b := by
  by_contra hne
  have hsym : Symmetric (fun a b : Session =>
      ¬(a.emp = b.emp ∧ a.coDateOpt = b.coDateOpt
        ∧ a.coDateOpt.isSome = true)) := by
    intro x y hxy hc
    exact hxy ⟨hc.1.symm, hc.2.1.symm, hc.2.1 ▸ hc.2.2⟩
  exact (hu.forall hsym ha hb hne)
    ⟨hemp, (coDateOpt_eq_some_iff.mpr hda).trans
        (coDateOpt_eq_some_iff.mpr hdb).symm,
      by rw [coDateOpt_eq_some_iff.mpr hda]; rfl⟩

/-- Closing one open, check-in-bearing row — guarded by the absorption
check on the checkout date and by the chronology validation — keeps the
store well-formed and only evolves it (no deletion, closed rows
untouched). -/
theorem closeSession_good {store : List Session} {cr : Session}
    {ci : CheckinData} {co : CheckoutData}
    (hg : GoodStore store) (hcr : cr ∈ store) (hopen : cr.checkout = none)
    (hcin : cr.checkin = some ci)
    (hguard : store.any (fun s => s.emp == cr.emp && s.coDateIs co.date)
      = false)
    (hts : toTS ci.date ci.time < toTS co.date co.time)
    (hgap : ci.date = co.date →
      toTS ci.date ci.time + 3600 ≤ toTS co.date co.time) :
    GoodStore (closeSession store cr.id co) ∧
      StoreEvolves store (closeSession store cr.id co) := by
  obtain ⟨hids, huci, huco, hnor, hnan⟩ := hg
  have hnds : store.Nodup := List.Nodup.of_map _ hids
  unfold closeSession
  set f : Session → Session :=
    fun t => if t.id == cr.id then { t with checkout := some co } else t
    with hfdef
  have hfid : ∀ t : Session, (f t).id = t.id := by
    intro t
    rw [hfdef]
    dsimp only
    split <;> rfl
  have hfemp : ∀ t : Session, (f t).emp = t.emp := by
    intro t
    rw [hfdef]
    dsimp only
    split <;> rfl
  have hfcin : ∀ t : Session, (f t).checkin = t.checkin := by
    intro t
    rw [hfdef]
    dsimp only
    split <;> rfl
  have hfcio : ∀ t : Session, (f t).ciDateOpt = t.ciDateOpt := by
    intro t
    unfold Session.ciDateOpt
    rw [hfcin]
  have hfix : ∀ t ∈ store, t ≠ cr → f t = t := by
    intro t ht hne
    rw [hfdef]
    dsimp only
    rw [if_neg]
    intro hbeq
    exact hne (session_id_inj hids ht hcr (beq_iff_eq.mp hbeq))
  have hfcr : f cr = { cr with checkout := some co } := by
    rw [hfdef]
    dsimp only
    rw [if_pos (beq_self_eq_true cr.id)]
  have hguard' : ∀ x ∈ store, x.emp = cr.emp → x.coDateIs co.date = false := by
    intro x hx hemp
    have hh := List.any_eq_false.mp hguard x hx
    simp only [Bool.and_eq_true, beq_iff_eq, not_and] at hh
    cases hcd : x.coDateIs co.date with
    | false => rfl
    | true => exact absurd hcd (hh hemp)
  have hcrDO : (f cr).coDateOpt = some co.date := by
    rw [hfcr]
    rfl
  have hidsB : ((store.map f).map Session.id).Nodup := by
    rw [List.map_map]
    have hmc : store.map (Session.id ∘ f) = store.map Session.id :=
      List.map_congr_left (fun a _ => hfid a)
    rw [hmc]
    exact hids
  have hmemB : ∀ t ∈ store, t ≠ cr → t ∈ store.map f := by
    intro t ht hne
    have := List.mem_map_of_mem f ht
    rwa [hfix t ht hne] at this
  refine ⟨⟨hidsB, ?_, ?_, ?_, ?_⟩, ?_, ?_⟩
  · -- UniqueCIKey
    unfold UniqueCIKey
    rw [List.pairwise_map]
    refine huci.imp ?_
    intro a b hab hc
    exact hab ⟨by rw [← hfemp a, ← hfemp b]; exact hc.1,
      by rw [← hfcio a, ← hfcio b]; exact hc.2.1,
      by rw [← hfcio a]; exact hc.2.2⟩
  · -- UniqueCOKey
    unfold UniqueCOKey
    rw [List.pairwise_map]
    refine (List.Pairwise.and hnds huco).imp_of_mem ?_
    intro a b ha hb hab hc
    by_cases hia : a = cr
    · by_cases hib : b = cr
      · exact hab.1 (hia.trans hib.symm)
      · rw [hia] at hc
        rw [hfix b hb hib] at hc
        rcases hc with ⟨hce, hcd, _⟩
        rw [hcrDO] at hcd
        rw [hfemp cr] at hce
        have hbco : b.coDateIs co.date = true :=
          coDateOpt_eq_some_iff.mp hcd.symm
        rw [hguard' b hb hce.symm] at hbco
        exact Bool.noConfusion hbco
    · rw [hfix a ha hia] at hc
      by_cases hib : b = cr
      · rw [hib] at hc
        rcases hc with ⟨hce, hcd, _⟩
        rw [hcrDO] at hcd
        rw [hfemp cr] at hce
        have haco : a.coDateIs co.date = true := coDateOpt_eq_some_iff.mp hcd
        rw [hguard' a ha hce] at haco
        exact Bool.noConfusion haco
      · rw [hfix b hb hib] at hc
        exact hab.2 hc
  · -- NoOrphanRows
    intro x hx
    rcases List.mem_map.mp hx with ⟨t, ht, rfl⟩
    by_cases hit : t = cr
    · subst hit
      rw [hfcr]
      unfold keptByOrphanFix
      rw [show ({ t with checkout := some co } : Session).checkin = t.checkin
        from rfl, hcin]
      rfl
    · rw [hfix t ht hit]
      exact hnor t ht
  · -- NoAnomalyRows
    intro x hx
    rcases List.mem_map.mp hx with ⟨t, ht, rfl⟩
    by_cases hit : t = cr
    · subst hit
      rw [hfcr]
      constructor
      · rw [Bool.eq_false_iff]
        intro hcon
        simp only [anomalyRule1,
          show ({ t with checkout := some co } : Session).checkin = t.checkin
            from rfl, hcin, Bool.and_eq_true, beq_iff_eq,
          decide_eq_true_eq] at hcon
        have := hgap hcon.1.1
        simp only [toTS] at this hts
        omega
      · rw [Bool.eq_false_iff]
        intro hcon
        simp only [anomalyRule2,
          show ({ t with checkout := some co } : Session).checkin = t.checkin
            from rfl, hcin, Bool.and_eq_true, beq_iff_eq,
          decide_eq_true_eq] at hcon
        have := hgap hcon.1.1.1
        simp only [toTS] at this hts
        omega
    · rw [hfix t ht hit]
      exact hnan t ht
  · -- ClosedPreserved
    intro t ht hc
    have hne : t ≠ cr := by
      intro he
      rw [he, hopen] at hc
      exact Bool.noConfusion hc
    exact hmemB t ht hne
  · -- RowsPreserved
    intro t ht
    exact ⟨f t, List.mem_map_of_mem f ht, hfid t, hfemp t, hfcin t⟩

/-- The max-id fold is monotone in its accumulator. -/
theorem foldl_max_id_init_le :
    ∀ (store : List Session) (acc : Nat),
      acc ≤ store.foldl (fun m s => max m s.id) acc
  | [], _ => Nat.le_refl _
  | x :: xs, acc =>
    Nat.le_trans (Nat.le_max_left acc x.id)
      (foldl_max_id_init_le xs (max acc x.id))

/-- Every id in the store is bounded by `maxSessionId`. -/
theorem le_maxSessionId {store : List Session} {s : Session}
    (hs : s ∈ store) : s.id ≤ maxSessionId store := by
  unfold maxSessionId
  generalize 0 = acc
  induction store generalizing acc with
  | nil => cases hs
  | cons x xs ih =>
    simp only [List.foldl_cons]
    rcases List.mem_cons.mp hs with rfl | hs'
    · exact Nat.le_trans (Nat.le_max_right acc s.id)
        (foldl_max_id_init_le xs (max acc s.id))
    · exact ih hs' _

/-- Appending the fresh open row of `process_checkin` — guarded by the
session-existence check — keeps the store well-formed and only evolves
it. -/
theorem append_fresh_good {store : List Session} {bm : MasterData}
    {emp : String} {d : Int} {t : Nat} (hg : GoodStore store)
    (hex : store.any (fun s => s.emp == emp && s.ciDateIs d) = false) :
    GoodStore (store ++ [freshSession store bm emp d t]) ∧
      StoreEvolves store (store ++ [freshSession store bm emp d t]) := by
  obtain ⟨hids, huci, huco, hnor, hnan⟩ := hg
  have hex' : ∀ x ∈ store, x.emp = emp → x.ciDateIs d = false := by
    intro x hx hemp
    have hh := List.any_eq_false.mp hex x hx
    simp only [Bool.and_eq_true, beq_iff_eq, not_and] at hh
    cases hcd : x.ciDateIs d with
    | false => rfl
    | true => exact absurd hcd (hh hemp)
  refine ⟨⟨?_, ?_, ?_, ?_, ?_⟩, ?_, ?_⟩
  · rw [List.map_append, List.nodup_append]
    refine ⟨hids, List.nodup_singleton _, ?_⟩
    intro x hx1 hx2
    rcases List.mem_map.mp hx1 with ⟨s, hs, rfl⟩
    simp only [List.map_cons, List.map_nil, List.mem_singleton] at hx2
    have := le_maxSessionId hs
    rw [show (freshSession store bm emp d t).id = maxSessionId store + 1
      from rfl] at hx2
    omega
  · unfold UniqueCIKey
    rw [List.pairwise_append]
    refine ⟨huci, List.pairwise_singleton _ _, ?_⟩
    intro a ha b hb
    rw [List.mem_singleton.mp hb]
    intro hc
    have hemp : a.emp = emp := hc.1
    have hci : a.ciDateOpt = some d := by
      rw [hc.2.1]
      rfl
    have := ciDateOpt_eq_some_iff.mp hci
    rw [hex' a ha hemp] at this
    exact Bool.noConfusion this
  · unfold UniqueCOKey
    rw [List.pairwise_append]
    refine ⟨huco, List.pairwise_singleton _ _, ?_⟩
    intro a ha b hb
    rw [List.mem_singleton.mp hb]
    intro hc
    have hao : a.coDateOpt = none := by
      rw [hc.2.1]
      rfl
    have := hc.2.2
    rw [hao] at this
    exact Bool.noConfusion this
  · intro x hx
    rcases List.mem_append.mp hx with hx' | hx'
    · exact hnor x hx'
    · rw [List.mem_singleton.mp hx']
      rfl
  · intro x hx
    rcases List.mem_append.mp hx with hx' | hx'
    · exact hnan x hx'
    · rw [List.mem_singleton.mp hx']
      exact ⟨rfl, rfl⟩
  · intro s hs _
    exact List.mem_append_left _ hs
  · intro s hs
    exact ⟨s, List.mem_append_left _ hs, rfl, rfl, rfl⟩

/-- `processCheckout` keeps a well-formed store well-formed and only
evolves it. -/
theorem processCheckout_evolves (master : String → Option MasterData)
    (store : List Session) (emp : String) (coDate : Int) (coTime : Nat)
    (fa : Bool) (hg : GoodStore store) :
    GoodStore (processCheckout master store emp coDate coTime fa).1 ∧
      StoreEvolves store (processCheckout master store emp coDate coTime fa).1
    := by
  rcases processCheckout_cases master store emp coDate coTime fa with
    h | ⟨cr, ci, bm, hm, hany, hfind, hcin, hval, heq⟩
  · rw [h]
    exact ⟨hg, storeEvolves_refl _⟩
  · rw [heq]
    have spec := findCheckinForCheckout_spec hfind
    have hv := validate_checkout_sound hval
    refine closeSession_good hg spec.1 spec.2.1 hcin ?_ hv.1 hv.2
    rw [spec.2.2]
    exact hany

/-- `processCheckin` with missing master data is a no-op. -/
theorem processCheckin_noMaster {master : String → Option MasterData}
    {now : Int} {st : SysState} {emp : String} {d : Int} {t : Nat}
    (hm : master emp = none) :
    processCheckin master now st emp d t = (st, false) := by
  simp [processCheckin, hm]

/-- `processCheckin` is absorbed by the session-existence check (and, as
`checkin_existing_session_amended` records, marks nothing). -/
theorem processCheckin_absorbed {master : String → Option MasterData}
    {now : Int} {st : SysState} {emp : String} {d : Int} {t : Nat}
    {bm : MasterData} (hm : master emp = some bm)
    (hex : st.store.any (fun s => s.emp == emp && s.ciDateIs d) = true) :
    processCheckin master now st emp d t = (st, true) := by
  simp [processCheckin, hm, hex]

/-- In the insert branch, the resulting store is the appended fresh row,
possibly further transformed by one `processCheckout` call (for a found
same/next-day checkout or the forced deadline checkout). -/
theorem processCheckin_insert_cases {master : String → Option MasterData}
    {now : Int} {st : SysState} {emp : String} {d : Int} {t : Nat}
    {bm : MasterData} (hm : master emp = some bm)
    (hex : st.store.any (fun s => s.emp == emp && s.ciDateIs d) = false) :
    (processCheckin master now st emp d t).1.store
        = st.store ++ [freshSession st.store bm emp d t] ∨
      ∃ cD cT fa,
        (processCheckin master now st emp d t).1.store =
          (processCheckout master
            (st.store ++ [freshSession st.store bm emp d t]) emp cD cT fa).1
    := by
  cases hfind : findCheckoutForCheckin
      (markMigration st.events emp d t EvKind.checkin .applied) (dayOf now)
      emp d t with
  | some co =>
    right
    exact ⟨co.date, co.time, false, by simp [processCheckin, hm, hex, hfind]⟩
  | none =>
    cases htoday : (d == dayOf now) with
    | true =>
      left
      simp [processCheckin, hm, hex, hfind, htoday]
    | false =>
      by_cases hdl : now > toTS (d + 1) 18000
      · right
        exact ⟨d + 1, 18000, true,
          by simp [processCheckin, hm, hex, hfind, htoday, hdl]⟩
      · left
        simp [processCheckin, hm, hex, hfind, htoday, hdl]

/-- `processCheckin` keeps a well-formed store well-formed and only
evolves it. -/
theorem processCheckin_evolves (master : String → Option MasterData)
    (now : Int) (st : SysState) (emp : String) (d : Int) (t : Nat)
    (hg : GoodStore st.store) :
    GoodStore (processCheckin master now st emp d t).1.store ∧
      StoreEvolves st.store (processCheckin master now st emp d t).1.store
    := by
  cases hm : master emp with
  | none =>
    rw [processCheckin_noMaster hm]
    exact ⟨hg, storeEvolves_refl _⟩
  | some bm =>
    cases hex : st.store.any (fun s => s.emp == emp && s.ciDateIs d) with
    | true =>
      rw [processCheckin_absorbed hm hex]
      exact ⟨hg, storeEvolves_refl _⟩
    | false =>
      have hins := @append_fresh_good st.store bm emp d t hg hex
      rcases processCheckin_insert_cases hm hex with h | ⟨cD, cT, fa, h⟩
      · rw [h]
        exact hins
      · rw [h]
        have hco := processCheckout_evolves master _ emp cD cT fa hins.1
        exact ⟨hco.1, storeEvolves_trans hins.2 hco.2⟩

/-- Dispatching one fetched record keeps a well-formed store well-formed
and only evolves it. -/
theorem applyRecord_evolves (master : String → Option MasterData)
    (now : Int) (st : SysState) (e : Event) (hg : GoodStore st.store) :
    GoodStore (applyRecord master now st e).store ∧
      StoreEvolves st.store (applyRecord master now st e).store := by
  cases hk : e.kind with
  | checkin =>
    unfold applyRecord
    rw [hk]
    exact processCheckin_evolves master now st e.emp e.date e.time hg
  | checkout =>
    unfold applyRecord
    rw [hk]
    exact processCheckout_evolves master st.store e.emp e.date e.time false hg
  | breakin =>
    unfold applyRecord
    rw [hk]
    exact ⟨hg, storeEvolves_refl _⟩
  | breakout =>
    unfold applyRecord
    rw [hk]
    exact ⟨hg, storeEvolves_refl _⟩

/-- One sweep step keeps a well-formed store well-formed and only evolves
it. -/
theorem sweepOne_evolves (master : String → Option MasterData) (now : Int)
    (st : SysState) (r : Session) (hg : GoodStore st.store) :
    GoodStore (sweepOne master now st r).store ∧
      StoreEvolves st.store (sweepOne master now st r).store := by
  cases hci : r.checkin with
  | none =>
    simp only [sweepOne, hci]
    exact ⟨hg, storeEvolves_refl _⟩
  | some ci =>
    simp only [sweepOne, hci]
    by_cases hdl : now > toTS (ci.date + 1) 18000
    · rw [if_pos hdl]
      cases hpick : pickEarliestEvent (st.events.filter
          (fun e => e.emp == r.emp && e.kind == EvKind.checkout
            && e.migration == MigStatus.pending
            && ci.date ≤ e.date && e.date ≤ ci.date + 1)) with
      | some co =>
        simp only [hpick]
        exact processCheckout_evolves master st.store r.emp co.date co.time
          false hg
      | none =>
        simp only [hpick]
        by_cases hpre : st.store.any (fun s => s.emp == r.emp
            && (match s.checkout with
              | some c => c.date == ci.date + 1 && c.time == 18000
              | none => false)) = true
        · rw [if_pos hpre]
          exact ⟨hg, storeEvolves_refl _⟩
        · rw [if_neg hpre]
          exact processCheckout_evolves master st.store r.emp (ci.date + 1)
            18000 true hg
    · rw [if_neg hdl]
      exact ⟨hg, storeEvolves_refl _⟩

/-- One cross-day scan step keeps a well-formed store well-formed and only
evolves it. -/
theorem crossDayStep_evolves (master : String → Option MasterData)
    (now : Int) (recs : List Event) (st : SysState) (i : Nat)
    (hg : GoodStore st.store) :
    GoodStore (crossDayStep master now recs st i).store ∧
      StoreEvolves st.store (crossDayStep master now recs st i).store := by
  cases hgi : recs.get? i with
  | none =>
    simp only [crossDayStep, hgi]
    exact ⟨hg, storeEvolves_refl _⟩
  | some r =>
    simp only [crossDayStep, hgi]
    by_cases hk : (r.kind == EvKind.checkin) = true
    · rw [if_pos hk]
      cases hfw : ((recs.drop (i + 1)).take 9).find?
          (fun e => e.kind == EvKind.checkout && e.date > r.date) with
      | none =>
        simp only [hfw]
        exact ⟨hg, storeEvolves_refl _⟩
      | some co =>
        simp only [hfw]
        by_cases hdt : toTS co.date co.time > toTS r.date r.time
        · rw [if_pos hdt]
          have h1 := processCheckin_evolves master now st r.emp r.date
            r.time hg
          by_cases h2 : (processCheckin master now st r.emp r.date r.time).2
              = true
          · rw [if_pos h2]
            have h3 := processCheckout_evolves master
              (processCheckin master now st r.emp r.date r.time).1.store
              r.emp co.date co.time false h1.1
            exact ⟨h3.1, storeEvolves_trans h1.2 h3.2⟩
          · rw [if_neg h2]
            exact h1
        · rw [if_neg hdt]
          exact ⟨hg, storeEvolves_refl _⟩
    · rw [if_neg hk]
      exact ⟨hg, storeEvolves_refl _⟩

/-- A fold of store-evolving steps is store-evolving. -/
theorem foldl_evolves {β : Type} (step : SysState → β → SysState)
    (hstep : ∀ st x, GoodStore st.store →
      GoodStore (step st x).store ∧ StoreEvolves st.store (step st x).store) :
    ∀ (l : List β) (st : SysState), GoodStore st.store →
      GoodStore (l.foldl step st).store ∧
        StoreEvolves st.store (l.foldl step st).store
  | [], _, hg => ⟨hg, storeEvolves_refl _⟩
  | x :: xs, st, hg => by
    simp only [List.foldl_cons]
    have h1 := hstep st x hg
    have h2 := foldl_evolves step hstep xs (step st x) h1.1
    exact ⟨h2.1, storeEvolves_trans h1.2 h2.2⟩

/-- The per-date reconciliation pass keeps a well-formed store well-formed
and only evolves it. -/
theorem perDatePass_evolves (master : String → Option MasterData)
    (now : Int) (st : SysState) (target : Int) (hg : GoodStore st.store) :
    GoodStore (perDatePass master now st target).store ∧
      StoreEvolves st.store (perDatePass master now st target).store := by
  simp only [perDatePass]
  exact foldl_evolves _
    (fun acc emp hga => foldl_evolves _
      (fun st2 e hg2 => applyRecord_evolves master now st2 e hg2) _ acc hga)
    _ st hg

/-- The cross-day pass keeps a well-formed store well-formed and only
evolves it. -/
theorem crossDayPass_evolves (master : String → Option MasterData)
    (now : Int) (st : SysState) (startD endD : Int)
    (hg : GoodStore st.store) :
    GoodStore (crossDayPass master now st startD endD).store ∧
      StoreEvolves st.store (crossDayPass master now st startD endD).store
    := by
  simp only [crossDayPass, crossDayUser]
  exact foldl_evolves _
    (fun acc emp hga => foldl_evolves _
      (fun st2 i hg2 => crossDayStep_evolves master now _ st2 i hg2) _ acc
      hga)
    _ st hg

/-- The auto-checkout sweep keeps a well-formed store well-formed and only
evolves it. -/
theorem autoCheckoutSweep_evolves (master : String → Option MasterData)
    (now : Int) (st : SysState) (hg : GoodStore st.store) :
    GoodStore (autoCheckoutSweep master now st).store ∧
      StoreEvolves st.store (autoCheckoutSweep master now st).store := by
  simp only [autoCheckoutSweep]
  exact foldl_evolves _
    (fun st2 r hg2 => sweepOne_evolves master now st2 r hg2) _ st hg

/-- On a store with unique check-in keys every duplicate group is a
singleton, so the duplicate check-in fix deletes nothing. -/
theorem fixDuplicateCheckins_id {store : List Session}
    (huci : UniqueCIKey store) : fixDuplicateCheckins store = store := by
  unfold fixDuplicateCheckins
  rw [List.filter_eq_self]
  intro s hs
  cases hcin : s.checkin with
  | none => rfl
  | some ci =>
    show (if minEligibleDate ≤ ci.date then
        s.id == minIdOfList (checkinGroupIds store s.emp ci.date)
      else true) = true
    by_cases hd : minEligibleDate ≤ ci.date
    · rw [if_pos hd]
      have hself : s.ciDateIs ci.date = true := by
        simp [Session.ciDateIs, hcin]
      have hgrp : s.id ∈ checkinGroupIds store s.emp ci.date := by
        unfold checkinGroupIds
        exact List.mem_map.mpr ⟨s, List.mem_filter.mpr
          ⟨hs, by simp [hcin, hself]⟩, rfl⟩
      have hall : ∀ x ∈ checkinGroupIds store s.emp ci.date, x = s.id := by
        intro x hx
        unfold checkinGroupIds at hx
        rcases List.mem_map.mp hx with ⟨t, htf, hxid⟩
        rcases List.mem_filter.mp htf with ⟨htm, htp⟩
        simp only [Bool.and_eq_true, beq_iff_eq] at htp
        have hts : t = s := uniqueCI_same_key huci htm hs htp.1.1 htp.2 hself
        rw [← hxid, hts]
      rw [minIdOfList_const (List.ne_nil_of_mem hgrp) hall]
      simp
    · rw [if_neg hd]

/-- `find_and_fix_mismatched_data` is the identity on a well-formed store:
there are no orphans to delete and no duplicate check-in groups to trim. -/
theorem findAndFixMismatchedData_id (st : SysState)
    (hg : GoodStore st.store) : findAndFixMismatchedData st = st := by
  unfold findAndFixMismatchedData
  rw [List.filter_eq_self.mpr hg.2.2.2.1, fixDuplicateCheckins_id hg.2.1]

/-- An anomaly `UPDATE` whose rule matches no row changes nothing. -/
theorem applyAnomalyRule_id {p : Session → Bool} {store : List Session}
    (hnone : ∀ s ∈ store, p s = false) :
    applyAnomalyRule p store = store := by
  unfold applyAnomalyRule
  exact map_eq_self_of (fun s hs => by rw [hnone s hs]; rfl)

/-- `validate_and_fix_time_anomalies` is the identity on a well-formed
store: neither rule matches any row. -/
theorem validateAndFixTimeAnomalies_id (st : SysState)
    (hg : GoodStore st.store) : validateAndFixTimeAnomalies st = st := by
  unfold validateAndFixTimeAnomalies
  rw [applyAnomalyRule_id (fun s hs => (hg.2.2.2.2 s hs).1),
    applyAnomalyRule_id (fun s hs => (hg.2.2.2.2 s hs).2)]

/-- On a store with unique check-in keys the open-row duplicate groups are
singletons, so the open-row deduplication deletes nothing. -/
theorem dedupOpenSessions_id {store : List Session}
    (huci : UniqueCIKey store) : dedupOpenSessions store = store := by
  unfold dedupOpenSessions
  rw [List.filter_eq_self]
  intro s hs
  by_cases hco : s.checkout.isNone = true
  · rw [if_pos hco]
    cases hcin : s.checkin with
    | none => rfl
    | some ci =>
      show (s.id == minIdOfList (openGroupIds store s.emp ci.date)) = true
      have hself : s.ciDateIs ci.date = true := by
        simp [Session.ciDateIs, hcin]
      have hgrp : s.id ∈ openGroupIds store s.emp ci.date := by
        unfold openGroupIds
        exact List.mem_map.mpr ⟨s, List.mem_filter.mpr
          ⟨hs, by simp [hco, hself]⟩, rfl⟩
      have hall : ∀ x ∈ openGroupIds store s.emp ci.date, x = s.id := by
        intro x hx
        unfold openGroupIds at hx
        rcases List.mem_map.mp hx with ⟨t, htf, hxid⟩
        rcases List.mem_filter.mp htf with ⟨htm, htp⟩
        simp only [Bool.and_eq_true, beq_iff_eq] at htp
        have hts : t = s := uniqueCI_same_key huci htm hs htp.1.1 htp.2 hself
        rw [← hxid, hts]
      rw [minIdOfList_const (List.ne_nil_of_mem hgrp) hall]
      simp
  · rw [if_neg hco]

/-- On a store with unique check-out keys the closed-row duplicate groups
are singletons, so the closed-row deduplication deletes nothing. -/
theorem dedupClosedSessions_id {store : List Session}
    (huco : UniqueCOKey store) : dedupClosedSessions store = store := by
  unfold dedupClosedSessions
  rw [List.filter_eq_self]
  intro s hs
  cases hco : s.checkout with
  | none => rfl
  | some co =>
    show (s.id == minIdOfList (closedGroupIds store s.emp co.date)) = true
    have hself : s.coDateIs co.date = true := by
      simp [Session.coDateIs, hco]
    have hgrp : s.id ∈ closedGroupIds store s.emp co.date := by
      unfold closedGroupIds
      exact List.mem_map.mpr ⟨s, List.mem_filter.mpr
        ⟨hs, by simp [hself]⟩, rfl⟩
    have hall : ∀ x ∈ closedGroupIds store s.emp co.date, x = s.id := by
      intro x hx
      unfold closedGroupIds at hx
      rcases List.mem_map.mp hx with ⟨t, htf, hxid⟩
      rcases List.mem_filter.mp htf with ⟨htm, htp⟩
      simp only [Bool.and_eq_true, beq_iff_eq] at htp
      have hts : t = s := uniqueCO_same_key huco htm hs htp.1 htp.2 hself
      rw [← hxid, hts]
    rw [minIdOfList_const (List.ne_nil_of_mem hgrp) hall]
    simp

/-- `validate_and_cleanup_duplicates` is the identity on a well-formed
store: every duplicate group is a singleton. -/
theorem validateAndCleanupDuplicates_id (st : SysState)
    (hg : GoodStore st.store) : validateAndCleanupDuplicates st = st := by
  unfold validateAndCleanupDuplicates
  rw [dedupOpenSessions_id hg.2.1, dedupClosedSessions_id hg.2.2.1]

/-- **C1 (amended)**: re-running `sync_incremental` on a well-formed store
is absorbing in the row-level sense — every already-closed session row
survives completely unchanged, no row is deleted (each keeps its id,
employee and check-in fields), the `(employee, checkindate)` key stays
unique so no second session row is ever created for a day already
reconciled, and the result is again well-formed — but full state
idempotence fails, as the separate counterexample shows: a checkout event
deferred in one cycle can close a still-open older session in the next. -/
theorem full_cycle_absorption_amended (master : String → Option MasterData)
    (now : Int) (st : SysState) (hg : GoodStore st.store) :
    ClosedPreserved st.store (syncIncremental master now st).store ∧
      RowsPreserved st.store (syncIncremental master now st).store ∧
      UniqueCIKey (syncIncremental master now st).store ∧
      GoodStore (syncIncremental master now st).store := by
  have hsync : syncIncremental master now st
      = validateAndCleanupDuplicates (autoCheckoutSweep master now
          ((List.range (dayOf now - minEligibleDate + 1).toNat).foldl
            (fun acc i => perDatePass master now acc (minEligibleDate + i))
            (crossDayPass master now st minEligibleDate (dayOf now)))) := by
    simp only [syncIncremental]
    rw [findAndFixMismatchedData_id st hg,
      validateAndFixTimeAnomalies_id st hg]
  have h3 := crossDayPass_evolves master now st minEligibleDate (dayOf now)
    hg
  have h4 := foldl_evolves
    (fun acc i => perDatePass master now acc (minEligibleDate + i))
    (fun st2 i hg2 => perDatePass_evolves master now st2
      (minEligibleDate + i) hg2)
    (List.range (dayOf now - minEligibleDate + 1).toNat)
    (crossDayPass master now st minEligibleDate (dayOf now)) h3.1
  have h5 := autoCheckoutSweep_evolves master now
    ((List.range (dayOf now - minEligibleDate + 1).toNat).foldl
      (fun acc i => perDatePass master now acc (minEligibleDate + i))
      (crossDayPass master now st minEligibleDate (dayOf now))) h4.1
  have h6 := validateAndCleanupDuplicates_id _ h5.1
  rw [hsync, h6]
  have hev := storeEvolves_trans h3.2 (storeEvolves_trans h4.2 h5.2)
  exact ⟨hev.1, hev.2, h5.1.2.1, h5.1⟩

/-- Witness: the concrete scenario store is well-formed, so the amended
absorption theorem applies to it. -/
theorem full_cycle_absorption_amended_witness :
    GoodStore stX.store ∧
      (ClosedPreserved stX.store (syncIncremental masterX nowX stX).store ∧
        RowsPreserved stX.store (syncIncremental masterX nowX stX).store ∧
        UniqueCIKey (syncIncremental masterX nowX stX).store ∧
        GoodStore (syncIncremental masterX nowX stX).store) :=
  ⟨by unfold GoodStore UniqueCIKey UniqueCOKey NoOrphanRows NoAnomalyRows
      decide,
   full_cycle_absorption_amended masterX nowX stX
     (by unfold GoodStore UniqueCIKey UniqueCOKey NoOrphanRows NoAnomalyRows
         decide)⟩

end Attendance
